import Mathlib

/-!
# Verification of the ttavli backgammon engine (src/index.js)

A shallow embedding of the game-logic core of the repository's single source
file `src/index.js`.  The React component's pieces of state
(`boardState`, `availableDice`, `currentPlayer`, `selectedPoint`,
`possibleMovesInfo`, `mustReenterFromBar`, `moveHistory`, scores, message)
become fields of an explicit `GameState`, and every `setX(...)` call becomes a
functional update of that state.  JavaScript's `JSON.parse(JSON.stringify(b))`
deep copies are the identity in this value-semantics model.

JS strings for colors are modelled by the inductive `Col`.  The source's
`getOpponentColor` maps any non-`'white'` input to the literal string
`'opponent'`; `Col.opponent` models that third string value.

Checker stacks are JS arrays: `push` appends at the end, `pop` removes the
last element.  `bar` and `home` are objects keyed by color strings, modelled
as total functions `Col → Nat` (the key `'opponent'` is never written by any
guarded code path that executes; Nat subtraction only occurs where the
surrounding guards keep the value positive on reachable states).
-/

inductive Col where
  | white
  | black
  | opponent
deriving DecidableEq, Repr

instance : Fintype Col :=
  ⟨⟨{Col.white, Col.black, Col.opponent}, by decide⟩, fun c => by cases c <;> decide⟩

open Col

/-- The two movement paths, verbatim from `index.js` lines 835-836. -/
def whitePath : List Nat :=
  [12, 11, 10, 9, 8, 7, 6, 5, 4, 3, 2, 1, 24, 23, 22, 21, 20, 19, 18, 17, 16, 15, 14, 13]

def blackPath : List Nat :=
  [13, 14, 15, 16, 17, 18, 19, 20, 21, 22, 23, 24, 1, 2, 3, 4, 5, 6, 7, 8, 9, 10, 11, 12]

/-- The movement path a color's closures select
(`isWhite ? whitePath : blackPath`). -/
def pathFor (pc : Col) : List Nat := if pc = Col.white then whitePath else blackPath

/-- A move source: a board point (1-24 in meaningful calls) or the bar. -/
inductive Src where
  | bar
  | pt (n : Nat)
deriving DecidableEq, Repr

/-- The board: 24 points each holding a stack of checkers, plus per-color bar
and home (borne-off) counters, mirroring the `boardState` object. -/
structure Board where
  points : Fin 24 → List Col
  bar : Col → Nat
  home : Col → Nat

instance : DecidableEq Board := fun a b =>
  decidable_of_iff (a.points = b.points ∧ a.bar = b.bar ∧ a.home = b.home)
    (by cases a; cases b; simp)

/-- `boardState.points[idx].checkers`; out-of-range JS access yields
`undefined`, which every call site either guards against or treats as an
empty/absent point, modelled as `[]`. -/
def pointAt (b : Board) (idx : Nat) : List Col :=
  if h : idx < 24 then b.points ⟨idx, h⟩ else []

/-- Replace the stack at index `idx` (no-op when out of range; all actual
call sites are in range). -/
def pointsUpdate (b : Board) (idx : Nat) (l : List Col) : Board :=
  if h : idx < 24 then { b with points := Function.update b.points ⟨idx, h⟩ l } else b

def barUpd (b : Board) (c : Col) (n : Nat) : Board :=
  { b with bar := Function.update b.bar c n }

def barInc (b : Board) (c : Col) : Board := barUpd b c (b.bar c + 1)

def barDec (b : Board) (c : Col) : Board := barUpd b c (b.bar c - 1)

def homeUpd (b : Board) (c : Col) (n : Nat) : Board :=
  { b with home := Function.update b.home c n }

def homeInc (b : Board) (c : Col) : Board := homeUpd b c (b.home c + 1)

def homeDec (b : Board) (c : Col) : Board := homeUpd b c (b.home c - 1)

/-- `initializeBoard` (lines 847-863): the standard starting layout. -/
def initializeBoard : Board :=
  { points := fun i =>
      if i.val = 11 then List.replicate 2 Col.white
      else if i.val = 19 then List.replicate 3 Col.white
      else if i.val = 0 then List.replicate 5 Col.white
      else if i.val = 17 then List.replicate 5 Col.white
      else if i.val = 6 then List.replicate 5 Col.black
      else if i.val = 4 then List.replicate 3 Col.black
      else if i.val = 23 then List.replicate 5 Col.black
      else if i.val = 12 then List.replicate 2 Col.black
      else []
    bar := fun _ => 0
    home := fun _ => 0 }

/-- `getOpponentColor` (line 866), verbatim:
`(playerColor) => (playerColor === 'white' ? 'black' : 'opponent')`. -/
def getOpponentColor (playerColor : Col) : Col :=
  if playerColor = Col.white then Col.black else Col.opponent

/-- `isPointBlocked` (lines 869-874): the point's bottom checker equals the
"opponent color" and the stack has at least two checkers. -/
def isPointBlocked (pointIndex : Nat) (playerColor : Col) (currentBoardState : Board) : Bool :=
  let cs := pointAt currentBoardState pointIndex
  if cs.isEmpty then false
  else
    let opponentColor := getOpponentColor playerColor
    decide (cs.head? = some opponentColor) && decide (2 ≤ cs.length)

/-- The hard-coded bearing-off regions (lines 886, 952, 1045). -/
def homePointsFor (isWhite : Bool) : List Nat :=
  if isWhite then [6, 5, 4, 3, 2, 1] else [19, 20, 21, 22, 23, 24]

/-- JS `Array.prototype.indexOf`, as an `Option Nat` (`none` models `-1`). -/
def idxOf? : List Nat → Nat → Option Nat
  | [], _ => none
  | a :: l, x => if a = x then some 0 else (idxOf? l x).map (· + 1)

/-- `areAllCheckersInHomeBoard` (lines 877-911). -/
def areAllCheckersInHomeBoard (playerColor : Col) (b : Board) : Bool :=
  let isWhite := playerColor = Col.white
  let homePointsForBearingOff := homePointsFor isWhite
  if b.bar playerColor > 0 then false
  else if (List.finRange 24).any (fun i =>
      0 < ((b.points i).count playerColor) &&
      !(homePointsForBearingOff.contains (i.val + 1))) then false
  else
    decide (b.home playerColor +
      ((List.finRange 24).filter
        (fun i => homePointsForBearingOff.contains (i.val + 1))).foldl
        (fun acc i => acc + (b.points i).count playerColor) 0 = 15)

/-- The bar re-entry test for one die inside `checkIfAnyPossibleMoves`
(lines 920-931). -/
def checkIfAnyBarEntry (b : Board) (player : Col) (die : Nat) : Bool :=
  let isWhite := player = Col.white
  let targetGamePoint := if isWhite then die else 18 + die
  decide (1 ≤ targetGamePoint) && decide (targetGamePoint ≤ 24) &&
    !(isPointBlocked (targetGamePoint - 1) player b)

/-- The bearing-off test for one die inside `checkIfAnyPossibleMoves`
(lines 948-995). -/
def checkIfAnyBearOff (b : Board) (player : Col) (fromPoint die : Nat) : Bool :=
  let isWhite := player = Col.white
  if areAllCheckersInHomeBoard player b then
    let homePoints := homePointsFor isWhite
    let noCheckersEarlierInPath :=
      match idxOf? homePoints fromPoint with
      | some fromPointHomeIndex =>
          !((homePoints.take fromPointHomeIndex).any
            (fun furtherPointOnBoard =>
              (pointAt b (furtherPointOnBoard - 1)).contains player))
      | none => false
    let dieCanOvershoot :=
      decide (die ≥ (if isWhite then fromPoint else 25 - fromPoint))
    if noCheckersEarlierInPath then
      (if isWhite then decide (fromPoint = die)
       else decide (25 - fromPoint = die)) ||
      (dieCanOvershoot &&
        !((List.finRange 24).any (fun k =>
            (b.points k).contains player &&
            (if isWhite then decide (k.val + 1 > fromPoint)
             else decide (k.val + 1 < fromPoint)))))
    else false
  else false

/-- The per-die move test for a board source inside
`checkIfAnyPossibleMoves` (lines 945-1004). -/
def checkIfAnyDie (b : Board) (player : Col) (fromPoint fromPointIndexInPath die : Nat) :
    Bool :=
  let playerPath := if player = Col.white then whitePath else blackPath
  let targetPathIndex := fromPointIndexInPath + die
  if targetPathIndex ≥ playerPath.length then
    checkIfAnyBearOff b player fromPoint die
  else
    match playerPath.get? targetPathIndex with
    | some targetGamePoint =>
        decide (1 ≤ targetGamePoint) && decide (targetGamePoint ≤ 24) &&
          !(isPointBlocked (targetGamePoint - 1) player b)
    | none => false

/-- `checkIfAnyPossibleMoves` (lines 914-1008), assembled from the labelled
pieces above. -/
def checkIfAnyPossibleMoves (b : Board) (player : Col) (currentDice : List Nat) : Bool :=
  let playerPath := if player = Col.white then whitePath else blackPath
  if b.bar player > 0 then
    -- bar re-entry loop (lines 919-933)
    currentDice.any (fun die => checkIfAnyBarEntry b player die)
  else
    -- board-move loop (lines 936-1006)
    (List.finRange 24).any (fun i =>
      let cs := b.points i
      (!cs.isEmpty && decide (cs.head? = some player)) &&
      (let fromPoint := i.val + 1
       match idxOf? playerPath fromPoint with
       | none => false
       | some fromPointIndexInPath =>
         currentDice.any (fun die =>
           checkIfAnyDie b player fromPoint fromPointIndexInPath die)))

/-- JS `array.sort((a,b) => a-b)` : stable ascending sort. -/
def sortAsc (l : List Nat) : List Nat := l.insertionSort (· ≤ ·)

/-- JS `array.sort((a,b) => b-a)` : stable descending sort. -/
def sortDesc (l : List Nat) : List Nat := l.insertionSort (· ≥ ·)

/-- A `{ targetPoint, diceUsed }` object produced by the move generator
(`targetPoint` is a board point 1-24, or the sentinels 0 / 25 for white /
black bear-off). -/
structure MoveOption where
  targetPoint : Nat
  diceUsed : List Nat
deriving DecidableEq, Repr

/-- Result of `checkSingleStepLogic`: `targetGamePoint` is `none` when the JS
code leaves it `null`. -/
structure StepRes where
  targetGamePoint : Option Nat
  isValid : Bool
  isBearingOff : Bool
deriving DecidableEq, Repr

/-- `checkSingleStepLogic` (lines 1018-1080), the single-step validator used
by `calculatePossibleMoves`.  The JS closure captures `isWhite` and
`playerPath` from the surrounding `calculatePossibleMoves`; here they are
recomputed from `playerColor`.  The JS passes `-1` as the path index for bar
entries; that value is unused in the bar branch, so the model takes a plain
`Nat` index (callers pass `0` for bar).  A `startPoint` of `'bar'` with
`isInitialFromBar = false` never occurs (the recursive search only starts
from board points); the model returns an invalid result there. -/
def checkSingleStepLogic (playerColor : Col) (startPoint : Src) (startPathIndex : Nat)
    (die : Nat) (tempBoard : Board) (isInitialFromBar : Bool) : StepRes :=
  let isWhite := playerColor = Col.white
  let playerPath := if isWhite then whitePath else blackPath
  if isInitialFromBar ∧ startPoint = Src.bar then
    let targetGamePoint := if isWhite then die else 18 + die
    -- `targetPointIndex >= 0 && targetPointIndex < 24` : i.e. 1 ≤ target ≤ 24
    if 1 ≤ targetGamePoint ∧ targetGamePoint ≤ 24 ∧
        ¬(isPointBlocked (targetGamePoint - 1) playerColor tempBoard = true) then
      ⟨some targetGamePoint, true, false⟩
    else
      ⟨some targetGamePoint, false, false⟩
  else
    match startPoint with
    | Src.bar => ⟨none, false, false⟩    -- unreachable: see doc comment
    | Src.pt sp =>
      let targetPathIndex := startPathIndex + die
      if targetPathIndex ≥ playerPath.length then
        -- potential bearing off (lines 1040-1069)
        if areAllCheckersInHomeBoard playerColor tempBoard then
          let homePoints := homePointsFor isWhite
          match idxOf? homePoints sp with
          | none => ⟨none, false, true⟩    -- not in the home board: cannot bear off
          | some fromPointHomeIndex =>
            let noCheckersFurtherAway :=
              ¬((homePoints.take fromPointHomeIndex).any
                  (fun furtherPoint => (pointAt tempBoard (furtherPoint - 1)).contains playerColor)
                = true)
            if noCheckersFurtherAway then
              let distanceToBearOff := if isWhite then sp else 25 - sp
              if die = distanceToBearOff ∨ die > distanceToBearOff then
                ⟨some (if isWhite then 0 else 25), true, true⟩
              else ⟨none, false, true⟩
            else ⟨none, false, true⟩
        else ⟨none, false, true⟩
      else
        match playerPath.get? targetPathIndex with
        | some actualTargetGamePoint =>
          if 1 ≤ actualTargetGamePoint ∧ actualTargetGamePoint ≤ 24 ∧
              ¬(isPointBlocked (actualTargetGamePoint - 1) playerColor tempBoard = true) then
            ⟨some actualTargetGamePoint, true, false⟩
          else ⟨none, false, false⟩
        | none => ⟨none, false, false⟩   -- unreachable: targetPathIndex < playerPath.length

/-- The hypothetical removal of the moving checker from its source
(`findAllMoves` lines 1125-1140): `none` models
`checkerSuccessfullyMovedInTemp = false`. -/
def popSource (playerColor : Col) (currentFromPoint : Src) (b : Board) : Option Board :=
  match currentFromPoint with
  | Src.bar => if b.bar playerColor = 0 then none else some (barDec b playerColor)
  | Src.pt n =>
    if 1 ≤ n ∧ n ≤ 24 then
      let cs := pointAt b (n - 1)
      if cs.isEmpty ∨ ¬(cs.head? = some playerColor) then none
      else some (pointsUpdate b (n - 1) cs.dropLast)
    else none   -- JS: points[n-1] is undefined, `!...points[...]` fails the move

/-- One iteration of the `sortedRemainingDice.forEach` body inside
`findAllMoves` (lines 1115-1167), parameterised by the recursive call
`recur` (which receives the new source, path index, remaining dice, board
and path dice). -/
def forEachDie (playerColor : Col) (playerPath : List Nat) (currentFromPoint : Src)
    (currentFromPathIndex : Nat) (sortedRemainingDice : List Nat) (currentBoard : Board)
    (pathDice : List Nat)
    (recur : Src → Nat → List Nat → Board → List Nat → List MoveOption)
    (d1 : Nat) : List MoveOption :=
  let tempRemainingDice := sortedRemainingDice.erase d1
  match popSource playerColor currentFromPoint currentBoard with
  | none => []
  | some tempBoardAfterD1 =>
    let r := checkSingleStepLogic playerColor currentFromPoint currentFromPathIndex d1
               tempBoardAfterD1 false
    if r.isValid then
      match r.targetGamePoint with
      | none => []   -- unreachable: a valid step always has a target
      | some intermediatePoint =>
        if ¬r.isBearingOff then
          -- simulate a hit of a lone opposing checker (lines 1147-1150)
          let csT := pointAt tempBoardAfterD1 (intermediatePoint - 1)
          let hitBoard :=
            if csT.length = 1 ∧ csT.head? = some (getOpponentColor playerColor) then
              barInc (pointsUpdate tempBoardAfterD1 (intermediatePoint - 1) csT.dropLast)
                (getOpponentColor playerColor)
            else tempBoardAfterD1
          if isPointBlocked (intermediatePoint - 1) playerColor hitBoard then []
          else
            let boardAfterStep :=
              pointsUpdate hitBoard (intermediatePoint - 1)
                (pointAt hitBoard (intermediatePoint - 1) ++ [playerColor])
            let currentPathDice := sortAsc (pathDice ++ [d1])
            ⟨intermediatePoint, currentPathDice⟩ ::
              (match idxOf? playerPath intermediatePoint with
               | some intermediatePointPathIndex =>
                 if tempRemainingDice ≠ [] then
                   recur (Src.pt intermediatePoint) intermediatePointPathIndex
                     tempRemainingDice boardAfterStep currentPathDice
                 else []
               | none => [])
        else
          -- intermediate bear-off: no board mutation, path index := playerPath.length
          let currentPathDice := sortAsc (pathDice ++ [d1])
          ⟨intermediatePoint, currentPathDice⟩ ::
            (if tempRemainingDice ≠ [] then
               recur (Src.pt intermediatePoint) playerPath.length
                 tempRemainingDice tempBoardAfterD1 currentPathDice
             else [])
    else []

/-- The recursive search `findAllMoves` (lines 1106-1168).  Each iteration of
the JS `forEach` contributes the moves it pushes (in push order), so the
whole loop is a `flatMap` of `forEachDie` over the ascending-sorted
remaining dice.  The structural `fuel` argument is a termination device
only: every call site passes `fuel = remainingDice.length` (each recursive
call removes exactly one die), so the `fuel = 0` base case coincides with
the JS `remainingDice.length === 0` early return. -/
def findAllMoves (playerColor : Col) (playerPath : List Nat) :
    Nat → Src → Nat → List Nat → Board → List Nat → List MoveOption
  | 0, _, _, _, _, _ => []
  | fuel + 1, currentFromPoint, currentFromPathIndex, remainingDice, currentBoard,
      pathDice =>
    if remainingDice = [] then []
    else
      (sortAsc remainingDice).flatMap
        (forEachDie playerColor playerPath currentFromPoint currentFromPathIndex
          (sortAsc remainingDice) currentBoard pathDice
          (findAllMoves playerColor playerPath fuel))

/-- One `uniqueMovesMap.set`-style update on the insertion-ordered
association list modelling the JS `Map` (lines 1173-1203). -/
def mapSet (m : List (Nat × MoveOption)) (k : Nat) (v : MoveOption) :
    List (Nat × MoveOption) :=
  match m with
  | [] => [(k, v)]
  | (k', v') :: rest => if k' = k then (k', v) :: rest else (k', v') :: mapSet rest k v

/-- One iteration of the dedup/tie-break `forEach` (lines 1174-1203).  The
`diceUsed` lists are already sorted ascending when pushed, so the JS
canonical join-string comparison is plain list equality. -/
def dedupStep (m : List (Nat × MoveOption)) (move : MoveOption) :
    List (Nat × MoveOption) :=
  let key := move.targetPoint
  match m.find? (fun kv => kv.1 = key) with
  | none => m ++ [(key, move)]
  | some kv =>
    let existingMove := kv.2
    if move.diceUsed ≠ existingMove.diceUsed then
      if move.diceUsed.length < existingMove.diceUsed.length then mapSet m key move
      else if move.diceUsed.length = existingMove.diceUsed.length ∧
          move.diceUsed.foldl (· + ·) 0 > existingMove.diceUsed.foldl (· + ·) 0 then
        mapSet m key move
      else m
    else m

/-- The final unique-target filter (lines 1172-1206): fold the pushed moves
through the `Map`, then return its values in insertion order. -/
def dedupMoves (moves : List MoveOption) : List MoveOption :=
  (moves.foldl dedupStep []).map (·.2)

/-- `calculatePossibleMoves` (lines 1012-1207).  `mustReenterFromBar` is a
piece of React state read by the JS closure; it is passed explicitly here
and instantiated by each caller with the value the state holds at that call
site. -/
def calculatePossibleMoves (fromPoint : Src) (currentDice : List Nat) (playerColor : Col)
    (board : Board) (mustReenterFromBar : Bool) : List MoveOption :=
  let isWhite := playerColor = Col.white
  let playerPath := if isWhite then whitePath else blackPath
  if mustReenterFromBar ∧ fromPoint = Src.bar then
    -- bar re-entry (lines 1083-1093); pushed per die in dice order, no dedup
    currentDice.filterMap (fun die =>
      let r := checkSingleStepLogic playerColor Src.bar 0 die board true
      if r.isValid then some ⟨r.targetGamePoint.getD 0, [die]⟩ else none)
  else
    match fromPoint with
    | Src.bar => []   -- line 1096 first disjunct
    | Src.pt fp =>
      if 1 ≤ fp ∧ fp ≤ 24 then
        if (pointAt board (fp - 1)).head? = some playerColor then
          match idxOf? playerPath fp with
          | none => []
          | some fromPointIndexInPath =>
            dedupMoves (findAllMoves playerColor playerPath currentDice.length (Src.pt fp)
              fromPointIndexInPath currentDice board [])
        else []   -- line 1096 third disjunct (also covers the empty stack)
      else []     -- line 1096 second disjunct: points[fp-1] is undefined

/-- A `moveHistory` entry (pushed at lines 1363-1370 and 1398-1405). -/
structure MoveRecord where
  fromPoint : Src
  toPoint : Nat
  checkerColor : Col
  hitOpponentChecker : Bool
  hitCheckerColor : Option Col
  usedDice : List Nat
deriving DecidableEq, Repr

/-- The component state relevant to the game engine.  The purely visual
`dice` display pair, sound flag, modals and Firestore callbacks are omitted:
no game-logic branch reads them. -/
structure GameState where
  isPlaying : Bool
  boardState : Board
  currentPlayer : Col
  availableDice : List Nat
  selectedPoint : Option Nat
  possibleMovesInfo : List MoveOption
  mustReenterFromBar : Bool
  moveHistory : List MoveRecord
  playerScore : Nat
  opponentScore : Nat
  gameMessage : String
deriving DecidableEq

/-- `consume the used dice` (lines 1350-1358 / 1408-1416): remove the first
occurrence of each die; a missing die only logs a warning, matching
`List.erase`'s no-op. -/
def consumeDice (avail : List Nat) (diceToConsume : List Nat) : List Nat :=
  diceToConsume.foldl (fun acc d => acc.erase d) avail

/-- `endTurn` (lines 1253-1296).  Checks game winners, resets the board and
scores a game, or switches the player.  The player switch at line 1288 is an
inline ternary (`prev === 'white' ? 'black' : 'white'`), not the defective
`getOpponentColor` (which is only used to build the turn-ended message). -/
def endTurn (s : GameState) : GameState :=
  if ¬s.isPlaying then s
  else if s.boardState.home Col.white = 15 then
    { s with playerScore := s.playerScore + 1, boardState := initializeBoard,
             availableDice := [], selectedPoint := none, possibleMovesInfo := [],
             mustReenterFromBar := false, currentPlayer := Col.white,
             gameMessage := "New game started. White to roll.", moveHistory := [] }
  else if s.boardState.home Col.black = 15 then
    { s with opponentScore := s.opponentScore + 1, boardState := initializeBoard,
             availableDice := [], selectedPoint := none, possibleMovesInfo := [],
             mustReenterFromBar := false, currentPlayer := Col.black,
             gameMessage := "New game started. Black to roll.", moveHistory := [] }
  else
    { s with currentPlayer := if s.currentPlayer = Col.white then Col.black else Col.white,
             availableDice := [], selectedPoint := none, possibleMovesInfo := [],
             mustReenterFromBar := false,
             gameMessage := "Turn ended.", moveHistory := [] }

/-- `performMove` (lines 1301-1426).  Moves one checker from `fromPoint` to
`toPoint`, hitting a lone "opponent-colored" blot on the target, consuming
`diceToConsume` and pushing a `MoveRecord`.  Error paths (no checker on
bar/source) return the state unchanged except for the message.  The
exhausted-dice / no-more-moves turn end is scheduled via `setTimeout` and is
modelled as the separate `Step.turnEnd` event; only the immediate
game-win `endTurn()` call after a bear-off (line 1374) is kept inline. -/
def performMove (s : GameState) (fromPoint : Src) (toPoint : Nat)
    (diceToConsume : List Nat) : GameState :=
  let b0 := s.boardState
  let popped : Option (Board × Col) :=
    match fromPoint with
    | Src.bar =>
      if b0.bar s.currentPlayer > 0 then some (barDec b0 s.currentPlayer, s.currentPlayer)
      else none
    | Src.pt n =>
      if 1 ≤ n ∧ n ≤ 24 then
        let cs := pointAt b0 (n - 1)
        if cs.isEmpty ∨ ¬(cs.head? = some s.currentPlayer) then none
        else some (pointsUpdate b0 (n - 1) cs.dropLast, cs.getLastD s.currentPlayer)
      else none    -- JS would fault on points[n-1].checkers; never called this way
  match popped with
  | none => { s with gameMessage := "Error: no checker of current player at source." }
  | some (b1, checkerToMove) =>
    let isBearingOff := toPoint = 0 ∨ toPoint = 25
    let csTo := pointAt b1 (toPoint - 1)
    let hitOpponentChecker :=
      ¬isBearingOff ∧ csTo.length = 1 ∧ csTo.head? = some (getOpponentColor s.currentPlayer)
    if isBearingOff then
      let b2 := if toPoint = 0 then homeInc b1 Col.white else homeInc b1 Col.black
      let newAvailableDice := consumeDice s.availableDice diceToConsume
      let s1 := { s with
        boardState := b2, selectedPoint := none,
        availableDice := newAvailableDice, possibleMovesInfo := [],
        moveHistory := s.moveHistory ++
          [⟨fromPoint, toPoint, s.currentPlayer, false, none, diceToConsume⟩],
        gameMessage := "Checker borne off!" }
      if b2.home Col.white = 15 ∨ b2.home Col.black = 15 then endTurn s1 else s1
    else if 1 ≤ toPoint ∧ toPoint ≤ 24 then
      let b2 :=
        if hitOpponentChecker then
          barInc (pointsUpdate b1 (toPoint - 1) csTo.dropLast)
            (getOpponentColor s.currentPlayer)
        else b1
      let b3 := pointsUpdate b2 (toPoint - 1) (pointAt b2 (toPoint - 1) ++ [checkerToMove])
      let newAvailableDice := consumeDice s.availableDice diceToConsume
      { s with
        boardState := b3, selectedPoint := none,
        availableDice := newAvailableDice, possibleMovesInfo := [],
        moveHistory := s.moveHistory ++
          [⟨fromPoint, toPoint, s.currentPlayer, hitOpponentChecker,
            if hitOpponentChecker then some (getOpponentColor s.currentPlayer) else none,
            diceToConsume⟩],
        gameMessage := "Move made!" }
    else { s with gameMessage := "Error: invalid target." }
    -- JS would fault on points[toPoint-1].checkers for toPoint > 25; never called this way

/-- `rollDiceHandler` (lines 1429-1451): populate the dice (doubles expand to
four), clear selection and the turn-scoped history.  The skip-turn branches
only set a message and schedule `endTurn` through `setTimeout`, modelled by
the separate `Step.turnEnd` event. -/
def rollDiceHandler (s : GameState) (die1 die2 : Nat) : GameState :=
  if ¬s.isPlaying then s
  else
    let newAvailableDice := if die1 = die2 then [die1, die1, die1, die1] else [die1, die2]
    { s with availableDice := newAvailableDice, selectedPoint := none,
             possibleMovesInfo := [], moveHistory := [],
             gameMessage := "Rolled. Now make your move." }

/-- `undoLastMove` (lines 1475-1556).  Note two faithfulness points: the
history is popped (line 1483) *before* the consistency check at lines
1501-1505, so the error path keeps the popped history while leaving the
board and dice untouched; and the `calculatePossibleMoves('bar', ...)` call
at line 1550 still sees the *old* `mustReenterFromBar` React state, since
`setMustReenterFromBar(true)` has not re-rendered yet. -/
def undoLastMove (s : GameState) : GameState :=
  match s.moveHistory.getLast? with
  | none => { s with gameMessage := "No moves to undo!" }
  | some lastMove =>
    let newMoveHistory := s.moveHistory.dropLast
    let b0 := s.boardState
    let isBearingOffMove := lastMove.toPoint = 0 ∨ lastMove.toPoint = 25
    let step1 : Option Board :=
      if isBearingOffMove then
        let b1 := if lastMove.toPoint = 0 then homeDec b0 Col.white else homeDec b0 Col.black
        match lastMove.fromPoint with
        | Src.pt n => some (pointsUpdate b1 (n - 1) (pointAt b1 (n - 1) ++ [lastMove.checkerColor]))
        | Src.bar => none   -- JS would fault (points['bar'-1]); no such record is ever pushed
      else
        let csTo := pointAt b0 (lastMove.toPoint - 1)
        if ¬(csTo.getLast? = some lastMove.checkerColor) then none
        else
          let b1 := pointsUpdate b0 (lastMove.toPoint - 1) csTo.dropLast
          match lastMove.fromPoint with
          | Src.bar => some (barInc b1 lastMove.checkerColor)
          | Src.pt n => some (pointsUpdate b1 (n - 1) (pointAt b1 (n - 1) ++ [lastMove.checkerColor]))
    match step1 with
    | none =>
      { s with moveHistory := newMoveHistory,
               gameMessage := "Error undoing move. Please restart game if issues persist." }
    | some b1 =>
      let b2 :=
        match lastMove.hitOpponentChecker, lastMove.hitCheckerColor with
        | true, some hitColor =>
          let b' := barDec b1 hitColor
          if ¬(lastMove.toPoint = 0) ∧ ¬(lastMove.toPoint = 25) then
            pointsUpdate b' (lastMove.toPoint - 1) (pointAt b' (lastMove.toPoint - 1) ++ [hitColor])
          else b'
        | _, _ => b1
      let newAvailableDice := sortDesc (s.availableDice ++ lastMove.usedDice)
      let s1 := { s with moveHistory := newMoveHistory, boardState := b2,
                         availableDice := newAvailableDice, selectedPoint := none,
                         possibleMovesInfo := [], gameMessage := "Last move undone." }
      if b2.bar s.currentPlayer > 0 then
        let updatedAvailableDice := s.availableDice ++ lastMove.usedDice
        { s1 with mustReenterFromBar := true,
                  possibleMovesInfo := calculatePossibleMoves Src.bar updatedAvailableDice
                    s.currentPlayer b2 s.mustReenterFromBar }
      else { s1 with mustReenterFromBar := false }

/-- `handlePointClick` (lines 1613-1670): the selection/target state machine
driven by clicks on points 1-24 and the bear-off areas 0 / 25. -/
def handlePointClick (s : GameState) (pointNumber : Nat) : GameState :=
  if ¬s.isPlaying ∨ s.availableDice = [] then
    { s with gameMessage := "Please roll the dice and ensure moves are available!" }
  else if s.selectedPoint = some pointNumber then
    { s with selectedPoint := none, possibleMovesInfo := [],
             gameMessage := "Checker deselected." }
  else
    let isClickOnBearOffArea := pointNumber = 0 ∨ pointNumber = 25
    let targetMoveInfo := s.possibleMovesInfo.find? (fun m => m.targetPoint = pointNumber)
    if s.mustReenterFromBar then
      if isClickOnBearOffArea then
        { s with gameMessage := "You must re-enter checkers from the bar first." }
      else
        match targetMoveInfo with
        | some m => performMove s Src.bar pointNumber m.diceUsed
        | none =>
          { s with gameMessage :=
              "You must re-enter checkers from the bar. Please click a highlighted point." }
    else
      match s.selectedPoint, targetMoveInfo with
      | some sp, some m => performMove s (Src.pt sp) pointNumber m.diceUsed
      | _, _ =>
        if isClickOnBearOffArea then
          { s with gameMessage := "You cannot select checkers from the bear-off area.",
                   selectedPoint := none, possibleMovesInfo := [] }
        else
          let pointCheckers := pointAt s.boardState (pointNumber - 1)
          if ¬pointCheckers.isEmpty ∧ pointCheckers.head? = some s.currentPlayer then
            { s with selectedPoint := some pointNumber,
                     possibleMovesInfo := calculatePossibleMoves (Src.pt pointNumber)
                       s.availableDice s.currentPlayer s.boardState s.mustReenterFromBar,
                     gameMessage := "Selected checker. Now choose a destination." }
          else
            { s with gameMessage :=
                "You do not have checkers on this point. Please select your own checker.",
                     selectedPoint := none, possibleMovesInfo := [] }

/-- The state `startMatch` (lines 1455-1468) establishes. -/
def initialState : GameState :=
  { isPlaying := true, boardState := initializeBoard, currentPlayer := Col.white,
    availableDice := [], selectedPoint := none, possibleMovesInfo := [],
    mustReenterFromBar := false, moveHistory := [], playerScore := 0,
    opponentScore := 0, gameMessage := "Match started! White rolls first!" }

/-- The engine's event steps: a dice roll (button enabled only while
`availableDice` is empty, faces 1-6), a click on a point or bear-off area,
an undo request, and the `setTimeout`-scheduled automatic turn end (fired
by `performMove` / `rollDiceHandler` when the dice are exhausted or no move
is possible). -/
inductive Step : GameState → GameState → Prop
  | roll (s : GameState) (die1 die2 : Nat) :
      1 ≤ die1 → die1 ≤ 6 → 1 ≤ die2 → die2 ≤ 6 → s.availableDice = [] →
      Step s (rollDiceHandler s die1 die2)
  | click (s : GameState) (p : Nat) : p ≤ 25 → Step s (handlePointClick s p)
  | undo (s : GameState) : Step s (undoLastMove s)
  | turnEnd (s : GameState) :
      s.availableDice = [] ∨
        checkIfAnyPossibleMoves s.boardState s.currentPlayer s.availableDice = false →
      Step s (endTurn s)

/-- States reachable from the freshly started match by engine operations. -/
def Reachable (s : GameState) : Prop := Relation.ReflTransGen Step initialState s

/-- A bear-off-eligible position: White's last checker sits alone on point 3
(14 already borne off), Black's 15 checkers are on point 24. -/
def overshootBoard : Board :=
  { points := fun i =>
      if i.val = 2 then [Col.white]
      else if i.val = 23 then List.replicate 15 Col.black
      else []
    bar := fun _ => 0
    home := fun c => if c = Col.white then 14 else 0 }

/-! ### A concrete reachable play trace

White rolls 1-2 and plays 12→11→9, leaving a lone white checker on
point 12.  Black rolls 5-6 and plays 7→12 (landing on the white blot —
which is *not* hit, because `getOpponentColor('black') = 'opponent'`
matches no checker) and 24→6.  White then rolls 1-2, selects the now
mixed point 12 and moves to point 11; `performMove` pops the *top*
checker of the stack, which is black. -/

def trace1 : GameState := rollDiceHandler initialState 1 2
def trace2 : GameState := handlePointClick trace1 12   -- select point 12
def trace3 : GameState := handlePointClick trace2 11   -- move 12→11 with die 1
def trace4 : GameState := handlePointClick trace3 11   -- select point 11
def trace5 : GameState := handlePointClick trace4 9    -- move 11→9 with die 2
def trace6 : GameState := endTurn trace5               -- dice exhausted: scheduled turn end
def trace7 : GameState := rollDiceHandler trace6 5 6
def trace8 : GameState := handlePointClick trace7 7    -- black selects point 7
def trace9 : GameState := handlePointClick trace8 12   -- black moves 7→12 onto the white blot
def trace10 : GameState := handlePointClick trace9 24  -- black selects point 24
def trace11 : GameState := handlePointClick trace10 6  -- black moves 24→6 with die 6
def trace12 : GameState := endTurn trace11             -- dice exhausted: scheduled turn end
def trace13 : GameState := rollDiceHandler trace12 1 2
def trace14 : GameState := handlePointClick trace13 12 -- white selects the mixed point 12
def trace15 : GameState := handlePointClick trace14 11 -- performMove pops the black checker
def trace16 : GameState := undoLastMove trace15        -- undo takes its error path

/-! ### Checker conservation (toward C1) -/

/-- The number of checkers of color `c`: on the 24 points, on the bar, and
borne off (home). -/
def checkerCount (b : Board) (c : Col) : Nat :=
  (∑ i : Fin 24, ((b.points i).count c)) + b.bar c + b.home c

/-- The history predicate counting un-undone hit records of color `c`. -/
def histPred (c : Col) (r : MoveRecord) : Bool :=
  r.hitOpponentChecker && decide (r.hitCheckerColor = some c)

/-- The inductive invariant of the engine state: 15 checkers per color, dice
faces 1-6 everywhere, generated options target board points, history
records are well-formed and each outstanding hit is backed by a bar
checker. -/
structure EngineInv (s : GameState) : Prop where
  player : s.currentPlayer = Col.white ∨ s.currentPlayer = Col.black
  countW : checkerCount s.boardState Col.white = 15
  countB : checkerCount s.boardState Col.black = 15
  dice : ∀ d ∈ s.availableDice, 1 ≤ d ∧ d ≤ 6
  pmi : ∀ m ∈ s.possibleMovesInfo, (1 ≤ m.targetPoint ∧ m.targetPoint ≤ 24) ∧
        ∀ d ∈ m.diceUsed, 1 ≤ d ∧ d ≤ 6
  hist : ∀ r ∈ s.moveHistory, (1 ≤ r.toPoint ∧ r.toPoint ≤ 24) ∧
         (∀ d ∈ r.usedDice, 1 ≤ d ∧ d ≤ 6) ∧
         (r.fromPoint = Src.bar ∨ ∃ n, r.fromPoint = Src.pt n ∧ 1 ≤ n ∧ n ≤ 24) ∧
         (r.hitOpponentChecker = true →
           r.hitCheckerColor = some (getOpponentColor s.currentPlayer))
  sel : ∀ n, s.selectedPoint = some n → 1 ≤ n ∧ n ≤ 24
  barH : ∀ c : Col, s.moveHistory.countP (histPred c) ≤ s.boardState.bar c

/-! ### Basic update/access lemmas -/

theorem pointAt_pointsUpdate_self (b : Board) (idx : Nat) (l : List Col) (h : idx < 24) :
    pointAt (pointsUpdate b idx l) idx = l := by
  simp [pointAt, pointsUpdate, h]

theorem pointAt_pointsUpdate_other (b : Board) (idx : Nat) (l : List Col) (k : Nat)
    (h : k ≠ idx) : pointAt (pointsUpdate b idx l) k = pointAt b k := by
  by_cases h24 : idx < 24
  · by_cases hk : k < 24
    · simp only [pointAt, pointsUpdate, dif_pos h24, dif_pos hk]
      exact Function.update_noteq (fun hc => h (congrArg Fin.val hc)) _ _
    · simp [pointAt, pointsUpdate, dif_pos h24, dif_neg hk]
  · simp [pointAt, pointsUpdate, dif_neg h24]

theorem bar_pointsUpdate (b : Board) (idx : Nat) (l : List Col) :
    (pointsUpdate b idx l).bar = b.bar := by
  unfold pointsUpdate; split <;> rfl

theorem home_pointsUpdate (b : Board) (idx : Nat) (l : List Col) :
    (pointsUpdate b idx l).home = b.home := by
  unfold pointsUpdate; split <;> rfl

theorem pointAt_barUpd (b : Board) (c : Col) (n : Nat) (k : Nat) :
    pointAt (barUpd b c n) k = pointAt b k := by
  unfold pointAt barUpd; split <;> rfl

theorem pointAt_homeUpd (b : Board) (c : Col) (n : Nat) (k : Nat) :
    pointAt (homeUpd b c n) k = pointAt b k := by
  unfold pointAt homeUpd; split <;> rfl

theorem home_barUpd (b : Board) (c : Col) (n : Nat) : (barUpd b c n).home = b.home := rfl

theorem bar_homeUpd (b : Board) (c : Col) (n : Nat) : (homeUpd b c n).bar = b.bar := rfl

theorem pointAt_barInc (b : Board) (c : Col) (k : Nat) :
    pointAt (barInc b c) k = pointAt b k := pointAt_barUpd b c _ k

theorem home_barInc (b : Board) (c : Col) : (barInc b c).home = b.home := rfl

theorem bar_barInc (b : Board) (c : Col) :
    (barInc b c).bar = Function.update b.bar c (b.bar c + 1) := rfl

theorem pointAt_homeInc (b : Board) (c : Col) (k : Nat) :
    pointAt (homeInc b c) k = pointAt b k := pointAt_homeUpd b c _ k

theorem bar_homeInc (b : Board) (c : Col) : (homeInc b c).bar = b.bar := rfl

/-! ### `idxOf?` and path facts -/

theorem idxOf?_get? {l : List Nat} {x : Nat} {k : Nat} (h : idxOf? l x = some k) :
    l.get? k = some x := by
  induction l generalizing k with
  | nil => simp [idxOf?] at h
  | cons a t ih =>
    simp only [idxOf?] at h
    by_cases hax : a = x
    · rw [if_pos hax] at h
      cases h
      simpa using hax
    · rw [if_neg hax, Option.map_eq_some'] at h
      obtain ⟨m, hm, hk⟩ := h
      subst hk
      simpa using ih hm

theorem idxOf?_eq_none_iff {l : List Nat} {x : Nat} : idxOf? l x = none ↔ x ∉ l := by
  induction l with
  | nil => simp [idxOf?]
  | cons a t ih =>
    by_cases hax : a = x
    · simp [idxOf?, hax]
    · simp [idxOf?, hax, Option.map_eq_none, ih, Ne.symm hax]

theorem idxOf?_isSome_of_mem {l : List Nat} {x : Nat} (h : x ∈ l) :
    ∃ k, idxOf? l x = some k := by
  cases hi : idxOf? l x with
  | none => exact absurd (idxOf?_eq_none_iff.mp hi) (by simpa using h)
  | some k => exact ⟨k, rfl⟩

/-! ### Quick claim theorems -/

/-- C4.  The opponent-color mapping is *not* the claimed total involution:
`getOpponentColor` maps `black` to the literal placeholder `opponent`, not to
`white` (line 866). -/
theorem c4_getOpponentColor_black_not_white :
    getOpponentColor Col.white = Col.black ∧
    getOpponentColor Col.black = Col.opponent ∧
    getOpponentColor Col.black ≠ Col.white := by decide

/-- C3.  `isPointBlocked` is correct for White but never blocks for Black:
on the standard starting board, point 12 (index 11) holds two white
checkers — two opposing checkers for Black — yet
`isPointBlocked(11, 'black')` returns `false`, because
`getOpponentColor('black') = 'opponent'` matches no checker. -/
theorem c3_isPointBlocked_black_counterexample :
    pointAt initializeBoard 11 = [Col.white, Col.white] ∧
    isPointBlocked 11 Col.black initializeBoard = false ∧
    isPointBlocked 12 Col.white initializeBoard = true := by decide

/-- C7.  White is eligible to bear off (`areAllCheckersInHomeBoard` holds)
and the lone checker on point 3 with die 5 should be a legal overshoot
bear-off per the claim; but the generator instead offers a regular board
move to point 22 (point 3 sits at index 9 of `whitePath`, and 9 + 5 = 14
never reaches the end of the path), and no bear-off `MoveOption`
(sentinel target 0) is ever produced. -/
theorem c7_overshoot_bearoff_not_offered :
    areAllCheckersInHomeBoard Col.white overshootBoard = true ∧
    calculatePossibleMoves (Src.pt 3) [5] Col.white overshootBoard false = [⟨22, [5]⟩] ∧
    checkIfAnyPossibleMoves overshootBoard Col.white [5] = true ∧
    ((calculatePossibleMoves (Src.pt 3) [5] Col.white overshootBoard false).all
      (fun m => decide (m.targetPoint ≠ 0))) = true := by decide

/-- C8 counterexample.  From the standard start with dice `[6,6,6,6]`,
`calculatePossibleMoves` for White's point 1 offers *no* option targeting
point 13: point 13 (index 12) holds two black checkers in the starting
layout, so the second 6 of the chain 1→19→13 is blocked. -/
theorem c8_no_move_option_to_13 :
    ((calculatePossibleMoves (Src.pt 1) [6, 6, 6, 6] Col.white initializeBoard false).all
      (fun m => decide (m.targetPoint ≠ 13))) = true ∧
    pointAt initializeBoard 12 = [Col.black, Col.black] := by decide

/-- C8 amended.  The generator returns exactly the single-die option to
point 19 (`1 → 19`, one 6); the chained two-die option to point 13 is not
generated because point 13 is blocked by two black checkers at the start. -/
theorem c8_only_single_die_option :
    calculatePossibleMoves (Src.pt 1) [6, 6, 6, 6] Col.white initializeBoard false
      = [⟨19, [6]⟩] := by decide

theorem reachable_trace9 : Reachable trace9 :=
  Relation.ReflTransGen.tail
    (Relation.ReflTransGen.tail
      (Relation.ReflTransGen.tail
        (Relation.ReflTransGen.tail
          (Relation.ReflTransGen.tail
            (Relation.ReflTransGen.tail
              (Relation.ReflTransGen.tail
                (Relation.ReflTransGen.tail
                  (Relation.ReflTransGen.single
                    (Step.roll initialState 1 2 (by decide) (by decide) (by decide)
                      (by decide) (by decide)))
                  (Step.click trace1 12 (by decide)))
                (Step.click trace2 11 (by decide)))
              (Step.click trace3 11 (by decide)))
            (Step.click trace4 9 (by decide)))
          (Step.turnEnd trace5 (Or.inl (by decide))))
        (Step.roll trace6 5 6 (by decide) (by decide) (by decide) (by decide) (by decide)))
      (Step.click trace7 7 (by decide)))
    (Step.click trace8 12 (by decide))

theorem reachable_trace14 : Reachable trace14 :=
  Relation.ReflTransGen.tail
    (Relation.ReflTransGen.tail
      (Relation.ReflTransGen.tail
        (Relation.ReflTransGen.tail
          (Relation.ReflTransGen.tail reachable_trace9 (Step.click trace9 24 (by decide)))
          (Step.click trace10 6 (by decide)))
        (Step.turnEnd trace11 (Or.inl (by decide))))
      (Step.roll trace12 1 2 (by decide) (by decide) (by decide) (by decide) (by decide)))
    (Step.click trace13 12 (by decide))

/-- C2.  A reachable state in which a point holds checkers of both colors:
before Black's move, point 12 (index 11) holds exactly one white checker (a
lone opposing blot); Black's `performMove` onto it does *not* send the white
checker to the bar (the hit test compares against
`getOpponentColor('black') = 'opponent'`), and afterwards point 12 holds a
white and a black checker simultaneously. -/
theorem c2_mixed_point_reachable :
    Reachable trace9 ∧
    pointAt trace8.boardState 11 = [Col.white] ∧
    trace9 = handlePointClick trace8 12 ∧
    pointAt trace9.boardState 11 = [Col.white, Col.black] ∧
    trace9.boardState.bar Col.white = 0 :=
  ⟨reachable_trace9, by decide, rfl, by decide, by decide⟩

/-- C9.  Advisory rejections are no-ops: undoing with an empty turn history
changes only the message, and any click that matches no offered
`MoveOption` (an invalid source or target) leaves the board (points, bar,
home), the available dice and the move history untouched. -/
theorem c9_advisory_rejections_noop :
    (∀ s : GameState, s.moveHistory = [] →
       undoLastMove s = { s with gameMessage := "No moves to undo!" }) ∧
    (∀ s : GameState, ∀ p : Nat,
       s.possibleMovesInfo.find? (fun m => m.targetPoint = p) = none →
       (handlePointClick s p).boardState = s.boardState ∧
       (handlePointClick s p).availableDice = s.availableDice ∧
       (handlePointClick s p).moveHistory = s.moveHistory) := by
  constructor
  · intro s h
    simp [undoLastMove, h]
  · intro s p h
    unfold handlePointClick
    simp only [h]
    repeat' split
    all_goals first
      | exact ⟨rfl, rfl, rfl⟩
      | simp_all

/-- C9 witness: the statement instantiated at the initial state (empty
history, no offered moves, click on point 5). -/
theorem c9_advisory_rejections_noop_witness :
    initialState.moveHistory = [] ∧
    undoLastMove initialState = { initialState with gameMessage := "No moves to undo!" } ∧
    initialState.possibleMovesInfo.find? (fun m => m.targetPoint = 5) = none ∧
    (handlePointClick initialState 5).boardState = initialState.boardState :=
  ⟨rfl, c9_advisory_rejections_noop.1 initialState rfl, rfl,
    (c9_advisory_rejections_noop.2 initialState 5 rfl).1⟩

/-- C10.  The frame property of `performMove` for a board-to-board move:
the checker jumps directly from the source to the final target (the stack
at every other point is untouched, so blots on a chain's intermediate
landing points are left in place), home counts are unchanged, and the only
checker ever sent to a bar is a lone opposing checker on the final target
(per the code's hit test). -/
theorem c10_performMove_frame (s : GameState) (n toPoint : Nat) (du : List Nat)
    (hn1 : 1 ≤ n) (hn2 : n ≤ 24) (ht1 : 1 ≤ toPoint) (ht2 : toPoint ≤ 24)
    (hne : n ≠ toPoint)
    (hsrc : (pointAt s.boardState (n - 1)).head? = some s.currentPlayer) :
    (∀ k : Nat, k ≠ n - 1 → k ≠ toPoint - 1 →
       pointAt (performMove s (Src.pt n) toPoint du).boardState k
         = pointAt s.boardState k) ∧
    (performMove s (Src.pt n) toPoint du).boardState.home = s.boardState.home ∧
    pointAt (performMove s (Src.pt n) toPoint du).boardState (n - 1)
      = (pointAt s.boardState (n - 1)).dropLast ∧
    ((pointAt s.boardState (toPoint - 1)).length = 1 ∧
       (pointAt s.boardState (toPoint - 1)).head?
         = some (getOpponentColor s.currentPlayer) →
     (performMove s (Src.pt n) toPoint du).boardState.bar
         = Function.update s.boardState.bar (getOpponentColor s.currentPlayer)
             (s.boardState.bar (getOpponentColor s.currentPlayer) + 1) ∧
     pointAt (performMove s (Src.pt n) toPoint du).boardState (toPoint - 1)
         = [(pointAt s.boardState (n - 1)).getLastD s.currentPlayer]) ∧
    (¬((pointAt s.boardState (toPoint - 1)).length = 1 ∧
       (pointAt s.boardState (toPoint - 1)).head?
         = some (getOpponentColor s.currentPlayer)) →
     (performMove s (Src.pt n) toPoint du).boardState.bar = s.boardState.bar ∧
     pointAt (performMove s (Src.pt n) toPoint du).boardState (toPoint - 1)
         = pointAt s.boardState (toPoint - 1)
             ++ [(pointAt s.boardState (n - 1)).getLastD s.currentPlayer]) := by
  have hidx : n - 1 ≠ toPoint - 1 := by omega
  have hcs : ¬((pointAt s.boardState (n - 1)).isEmpty = true
      ∨ ¬((pointAt s.boardState (n - 1)).head? = some s.currentPlayer)) := by
    push_neg
    refine ⟨?_, hsrc⟩
    intro he
    rw [List.isEmpty_iff] at he
    rw [he] at hsrc
    simp at hsrc
  have hnotbear : ¬(toPoint = 0 ∨ toPoint = 25) := by omega
  have ht24 : 1 ≤ toPoint ∧ toPoint ≤ 24 := ⟨ht1, ht2⟩
  unfold performMove
  simp only [if_pos (And.intro hn1 hn2), if_neg hcs, if_neg hnotbear, if_pos ht24]
  set b1 := pointsUpdate s.boardState (n - 1) (pointAt s.boardState (n - 1)).dropLast with hb1
  have hb1to : pointAt b1 (toPoint - 1) = pointAt s.boardState (toPoint - 1) :=
    pointAt_pointsUpdate_other _ _ _ _ (Ne.symm hidx)
  have hb1n : pointAt b1 (n - 1) = (pointAt s.boardState (n - 1)).dropLast :=
    pointAt_pointsUpdate_self _ _ _ (by omega)
  by_cases hhit : (pointAt s.boardState (toPoint - 1)).length = 1 ∧
      (pointAt s.boardState (toPoint - 1)).head? = some (getOpponentColor s.currentPlayer)
  · -- a lone opposing checker on the final target is hit
    rw [if_pos (⟨hnotbear, by rw [hb1to]; exact hhit.1, by rw [hb1to]; exact hhit.2⟩ :
      ¬(toPoint = 0 ∨ toPoint = 25) ∧ (pointAt b1 (toPoint - 1)).length = 1 ∧
        (pointAt b1 (toPoint - 1)).head? = some (getOpponentColor s.currentPlayer))]
    have hdrop : (pointAt b1 (toPoint - 1)).dropLast = [] := by
      apply List.eq_nil_of_length_eq_zero
      rw [List.length_dropLast, hb1to, hhit.1]
    constructor
    · intro k hk1 hk2
      rw [pointAt_pointsUpdate_other _ _ _ _ hk2, pointAt_barInc,
        pointAt_pointsUpdate_other _ _ _ _ hk2, pointAt_pointsUpdate_other _ _ _ _ hk1]
    refine ⟨?_, ?_, fun _ => ⟨?_, ?_⟩, fun hc => absurd hhit hc⟩
    · rw [home_pointsUpdate, home_barInc, home_pointsUpdate, home_pointsUpdate]
    · rw [pointAt_pointsUpdate_other _ _ _ _ hidx, pointAt_barInc,
        pointAt_pointsUpdate_other _ _ _ _ hidx, hb1n]
    · rw [bar_pointsUpdate, bar_barInc, bar_pointsUpdate, bar_pointsUpdate]
    · rw [pointAt_pointsUpdate_self _ _ _ (by omega), pointAt_barInc,
        pointAt_pointsUpdate_self _ _ _ (by omega), hdrop, List.nil_append]
  · -- no hit: the target keeps its stack, bars are unchanged
    rw [if_neg (show ¬(¬(toPoint = 0 ∨ toPoint = 25) ∧
        (pointAt b1 (toPoint - 1)).length = 1 ∧
        (pointAt b1 (toPoint - 1)).head? = some (getOpponentColor s.currentPlayer)) from
      fun hc => hhit (by rw [← hb1to]; exact hc.2))]
    constructor
    · intro k hk1 hk2
      rw [pointAt_pointsUpdate_other _ _ _ _ hk2, pointAt_pointsUpdate_other _ _ _ _ hk1]
    refine ⟨?_, ?_, fun hc => absurd hc hhit, fun _ => ⟨?_, ?_⟩⟩
    · rw [home_pointsUpdate, home_pointsUpdate]
    · rw [pointAt_pointsUpdate_other _ _ _ _ hidx, hb1n]
    · rw [bar_pointsUpdate, bar_pointsUpdate]
    · rw [pointAt_pointsUpdate_self _ _ _ (by omega), hb1to]

/-- C10 witness: the frame property applied to White's opening move 12→11
with die 1 on the standard start (no hit: point 11 is empty). -/
theorem c10_performMove_frame_witness :
    pointAt (performMove initialState (Src.pt 12) 11 [1]).boardState 0
        = pointAt initialState.boardState 0 ∧
    (performMove initialState (Src.pt 12) 11 [1]).boardState.bar
        = initialState.boardState.bar :=
  ⟨(c10_performMove_frame initialState 12 11 [1] (by decide) (by decide) (by decide)
      (by decide) (by decide) (by decide)).1 0 (by decide) (by decide),
   ((c10_performMove_frame initialState 12 11 [1] (by decide) (by decide) (by decide)
      (by decide) (by decide) (by decide)).2.2.2.2 (by decide)).1⟩

/-- C6.  A reachable state where `performMove` followed by `undoLastMove`
does *not* restore the prior state.  In `trace14` the mixed point 12 holds
`[white, black]` and the generated option `⟨11,[1]⟩` is offered; applying it
moves the *black* top checker to point 11 while recording
`checkerColor = white`.  `undoLastMove` then finds a black checker on top of
point 11, takes its error path, pops the history record, and leaves the
moved checker and the consumed die unrestored: point 11 (index 10) still
holds the black checker and the die 1 is not refunded. -/
theorem c6_perform_then_undo_not_restored :
    Reachable trace14 ∧
    trace14.possibleMovesInfo.find? (fun m => m.targetPoint = 11) = some ⟨11, [1]⟩ ∧
    trace15 = handlePointClick trace14 11 ∧
    trace16 = undoLastMove trace15 ∧
    trace16.gameMessage = "Error undoing move. Please restart game if issues persist." ∧
    pointAt trace14.boardState 10 = [] ∧
    pointAt trace16.boardState 10 = [Col.black] ∧
    pointAt trace14.boardState 11 = [Col.white, Col.black] ∧
    pointAt trace16.boardState 11 = [Col.white] ∧
    trace14.availableDice = [1, 2] ∧
    trace16.availableDice = [2] :=
  ⟨reachable_trace14, by decide, rfl, rfl, by decide, by decide, by decide, by decide,
    by decide, by decide, by decide⟩

/-! ### Path facts and single-step characterizations (toward C5 and C1) -/

theorem pathFor_length (pc : Col) : (pathFor pc).length = 24 := by
  unfold pathFor; split <;> rfl

theorem pathFor_nodup (pc : Col) : (pathFor pc).Nodup := by
  unfold pathFor; split
  · decide
  · decide

/-- The last six positions of either path (indices 18-23) are never in that
color's hard-coded bearing-off region: `whitePath` ends in 18,…,13 while
White's home is 6,…,1, and `blackPath` ends in 7,…,12 while Black's home is
19,…,24.  This is why no bear-off is ever generated. -/
theorem pathFor_tail_not_in_home (pc : Col) :
    ∀ k, k < 24 → 18 ≤ k →
      ¬((pathFor pc).getD k 0 ∈ homePointsFor (pc = Col.white)) := by
  cases pc <;> decide

theorem nodup_get?_ne {l : List Nat} (hl : l.Nodup) {i j p q : Nat}
    (hi : l.get? i = some p) (hj : l.get? j = some q) (hij : i ≠ j) : p ≠ q := by
  intro he
  subst he
  obtain ⟨hi1, hi2⟩ := List.get?_eq_some.mp hi
  obtain ⟨hj1, hj2⟩ := List.get?_eq_some.mp hj
  have := List.nodup_iff_injective_get.mp hl (hi2.trans hj2.symm)
  exact hij (congrArg Fin.val this)

/-- `checkSingleStepLogic` with `isInitialFromBar = false` on a bar source
(never actually called): always invalid. -/
theorem checkSingleStepLogic_bar_false (pc : Col) (curIdx die : Nat) (b : Board) :
    checkSingleStepLogic pc Src.bar curIdx die b false = ⟨none, false, false⟩ := rfl

/-- The bar branch of `checkSingleStepLogic` (lines 1024-1035). -/
theorem checkSingleStepLogic_bar (pc : Col) (die : Nat) (b : Board) :
    checkSingleStepLogic pc Src.bar 0 die b true =
      (let t := if pc = Col.white then die else 18 + die
       if 1 ≤ t ∧ t ≤ 24 ∧ ¬(isPointBlocked (t - 1) pc b = true) then
         ⟨some t, true, false⟩
       else ⟨some t, false, false⟩) := rfl

/-- The board branch of `checkSingleStepLogic` (lines 1038-1079), written
with the lets expanded. -/
theorem checkSingleStepLogic_pt (pc : Col) (q curIdx die : Nat) (b : Board) :
    checkSingleStepLogic pc (Src.pt q) curIdx die b false =
      (if curIdx + die ≥ (pathFor pc).length then
        (if areAllCheckersInHomeBoard pc b then
          match idxOf? (homePointsFor (pc = Col.white)) q with
          | none => ⟨none, false, true⟩
          | some hi =>
            if ¬(((homePointsFor (pc = Col.white)).take hi).any
                (fun furtherPoint => (pointAt b (furtherPoint - 1)).contains pc) = true) then
              (if die = (if pc = Col.white then q else 25 - q) ∨
                  die > (if pc = Col.white then q else 25 - q) then
                 ⟨some (if pc = Col.white then 0 else 25), true, true⟩
               else ⟨none, false, true⟩)
            else ⟨none, false, true⟩
        else ⟨none, false, true⟩)
      else
        match (pathFor pc).get? (curIdx + die) with
        | some t =>
          if 1 ≤ t ∧ t ≤ 24 ∧ ¬(isPointBlocked (t - 1) pc b = true) then
            ⟨some t, true, false⟩
          else ⟨none, false, false⟩
        | none => ⟨none, false, false⟩) := rfl

/-- `List.getD` from `List.get?`. -/
theorem getD_of_get? {l : List Nat} {k q : Nat} (h : l.get? k = some q) :
    l.getD k 0 = q := by
  simp [List.getD_eq_getElem?_getD, ← List.get?_eq_getElem?, h]

/-- With a die face of at most 6, a valid step from a board source whose
path index is consistent with its point is never a bear-off: reaching the
end of the path forces a source among the path's last six points, which are
disjoint from the hard-coded home region. -/
theorem checkSingleStepLogic_not_valid_bearoff (pc : Col) (q curIdx die : Nat) (b : Board)
    (hdie : die ≤ 6)
    (hsrc : (pathFor pc).get? curIdx = some q ∨
            (curIdx = (pathFor pc).length ∧ (q = 0 ∨ q = 25))) :
    ¬((checkSingleStepLogic pc (Src.pt q) curIdx die b false).isValid = true ∧
      (checkSingleStepLogic pc (Src.pt q) curIdx die b false).isBearingOff = true) := by
  rintro ⟨hv, hb⟩
  rw [checkSingleStepLogic_pt] at hv hb
  by_cases hge : curIdx + die ≥ (pathFor pc).length
  · rw [if_pos hge] at hv
    have hnone : idxOf? (homePointsFor (pc = Col.white)) q = none := by
      rw [idxOf?_eq_none_iff]
      rcases hsrc with hq | ⟨hidx, hq⟩
      · have hlt : curIdx < (pathFor pc).length := (List.get?_eq_some.mp hq).1
        have h18 : 18 ≤ curIdx := by
          rw [pathFor_length] at hge
          omega
        have hgd := pathFor_tail_not_in_home pc curIdx (by rw [pathFor_length] at hlt; exact hlt) h18
        rwa [getD_of_get? hq] at hgd
      · rcases hq with rfl | rfl <;> cases pc <;> decide
    rw [hnone] at hv
    by_cases ha : areAllCheckersInHomeBoard pc b = true
    · rw [if_pos ha] at hv
      simp at hv
    · rw [if_neg ha] at hv
      simp at hv
  · rw [if_neg hge] at hb
    revert hb
    cases hget : (pathFor pc).get? (curIdx + die) with
    | none => simp
    | some t =>
      dsimp only
      by_cases hc : 1 ≤ t ∧ t ≤ 24 ∧ ¬(isPointBlocked (t - 1) pc b = true)
      · rw [if_pos hc]
        simp
      · rw [if_neg hc]
        simp

/-- A valid non-bear-off step from a board source: the explicit target,
bounds and blocking facts. -/
theorem checkSingleStepLogic_valid_regular (pc : Col) (q curIdx die : Nat) (b : Board)
    (hlt : curIdx + die < (pathFor pc).length)
    (hv : (checkSingleStepLogic pc (Src.pt q) curIdx die b false).isValid = true) :
    ∃ t, (pathFor pc).get? (curIdx + die) = some t ∧ 1 ≤ t ∧ t ≤ 24 ∧
      isPointBlocked (t - 1) pc b = false ∧
      (checkSingleStepLogic pc (Src.pt q) curIdx die b false).targetGamePoint = some t ∧
      (checkSingleStepLogic pc (Src.pt q) curIdx die b false).isBearingOff = false := by
  rw [checkSingleStepLogic_pt] at hv ⊢
  rw [if_neg (not_le.mpr hlt)] at hv ⊢
  revert hv
  cases hget : (pathFor pc).get? (curIdx + die) with
  | none => simp
  | some t =>
    dsimp only
    by_cases hc : 1 ≤ t ∧ t ≤ 24 ∧ ¬(isPointBlocked (t - 1) pc b = true)
    · intro _
      rw [if_pos hc]
      exact ⟨t, rfl, hc.1, hc.2.1, by simpa using hc.2.2, rfl, rfl⟩
    · rw [if_neg hc]
      simp

/-- Conversely, the regular conditions make the step valid. -/
theorem checkSingleStepLogic_regular_valid (pc : Col) (q curIdx die t : Nat) (b : Board)
    (hlt : curIdx + die < (pathFor pc).length)
    (hget : (pathFor pc).get? (curIdx + die) = some t)
    (ht1 : 1 ≤ t) (ht2 : t ≤ 24) (hnb : isPointBlocked (t - 1) pc b = false) :
    (checkSingleStepLogic pc (Src.pt q) curIdx die b false).isValid = true := by
  rw [checkSingleStepLogic_pt, if_neg (not_le.mpr hlt), hget]
  dsimp only
  rw [if_pos ⟨ht1, ht2, by simp [hnb]⟩]

/-- The post-hit block re-check inside `findAllMoves` (line 1152) can never
fire: hitting empties the point, and without a hit the board is unchanged. -/
theorem hit_recheck_not_blocked (pc : Col) (b1 : Board) (i : Nat)
    (hnb : isPointBlocked i pc b1 = false) :
    isPointBlocked i pc
      (if (pointAt b1 i).length = 1 ∧ (pointAt b1 i).head? = some (getOpponentColor pc) then
        barInc (pointsUpdate b1 i (pointAt b1 i).dropLast) (getOpponentColor pc)
      else b1) = false := by
  by_cases hhit : (pointAt b1 i).length = 1 ∧ (pointAt b1 i).head? = some (getOpponentColor pc)
  · rw [if_pos hhit]
    have hi : i < 24 := by
      by_contra hge
      have : pointAt b1 i = [] := by unfold pointAt; rw [dif_neg hge]
      rw [this] at hhit
      simp at hhit
    unfold isPointBlocked
    rw [pointAt_barInc, pointAt_pointsUpdate_self _ _ _ hi]
    have : (pointAt b1 i).dropLast = [] := by
      apply List.eq_nil_of_length_eq_zero
      rw [List.length_dropLast, hhit.1]
    rw [this]
    rfl
  · rw [if_neg hhit]
    exact hnb

/-- `popSource` for a board point under the generator's own guards. -/
theorem popSource_pt (pc : Col) (p : Nat) (b : Board)
    (hp : 1 ≤ p ∧ p ≤ 24) (hhead : (pointAt b (p - 1)).head? = some pc) :
    popSource pc (Src.pt p) b
      = some (pointsUpdate b (p - 1) (pointAt b (p - 1)).dropLast) := by
  unfold popSource
  dsimp only
  rw [if_pos hp, if_neg]
  rintro (he | hne)
  · rw [List.isEmpty_iff] at he
    rw [he] at hhead
    cases hhead
  · exact hne hhead

/-- One `forEachDie` iteration contributes moves exactly when the source
pops successfully and the single step validates. -/
theorem forEachDie_ne_nil_iff (pc : Col) (path : List Nat) (cur : Src) (curIdx : Nat)
    (sorted : List Nat) (b : Board) (pd : List Nat)
    (recur : Src → Nat → List Nat → Board → List Nat → List MoveOption) (d1 : Nat)
    (hdie : d1 ≤ 6)
    (hsrc : ∀ q, cur = Src.pt q →
      ((pathFor pc).get? curIdx = some q ∨
       (curIdx = (pathFor pc).length ∧ (q = 0 ∨ q = 25)))) :
    forEachDie pc path cur curIdx sorted b pd recur d1 ≠ [] ↔
      ∃ b1, popSource pc cur b = some b1 ∧
        (checkSingleStepLogic pc cur curIdx d1 b1 false).isValid = true := by
  unfold forEachDie
  cases hpop : popSource pc cur b with
  | none => simp
  | some b1 =>
    dsimp only
    constructor
    · intro hne
      refine ⟨b1, rfl, ?_⟩
      by_contra hv
      rw [if_neg (by simpa using hv)] at hne
      exact hne rfl
    · rintro ⟨b1', hb1', hv⟩
      cases hb1'
      rw [if_pos hv]
      cases cur with
      | bar =>
        rw [checkSingleStepLogic_bar_false] at hv
        cases hv
      | pt q =>
        by_cases hge : curIdx + d1 ≥ (pathFor pc).length
        · -- a valid bear-off is impossible here
          exfalso
          by_cases hbear : (checkSingleStepLogic pc (Src.pt q) curIdx d1 b1 false).isBearingOff
            = true
          · exact checkSingleStepLogic_not_valid_bearoff pc q curIdx d1 b1 hdie
              (hsrc q rfl) ⟨hv, hbear⟩
          · -- with `curIdx + d1` past the path end, the result is always a bear-off shape
            apply hbear
            rw [checkSingleStepLogic_pt, if_pos hge]
            by_cases ha : areAllCheckersInHomeBoard pc b1 = true
            · rw [if_pos ha]
              cases hio : idxOf? (homePointsFor (pc = Col.white)) q with
              | none => rfl
              | some hi =>
                dsimp only
                repeat' split
                all_goals rfl
            · rw [if_neg ha]
        · -- the step is a regular move: the pushed option makes the list non-empty
          obtain ⟨t, hget, ht1, ht2, hnbl, htarget, hbear⟩ :=
            checkSingleStepLogic_valid_regular pc q curIdx d1 b1 (not_le.mp hge) hv
          rw [htarget]
          dsimp only
          rw [if_pos (by simp [hbear]), if_neg]
          · intro hcons
            cases hcons
          · rw [hit_recheck_not_blocked pc b1 (t - 1) hnbl]
            simp

theorem sortAsc_mem {l : List Nat} {d : Nat} : d ∈ sortAsc l ↔ d ∈ l := by
  unfold sortAsc
  exact List.mem_insertionSort _

/-- The recursive search finds a move exactly when some die allows a first
valid step from the source. -/
theorem findAllMoves_ne_nil_iff (pc : Col) (path : List Nat) (fuel : Nat) (cur : Src)
    (curIdx : Nat) (rem : List Nat) (b : Board) (pd : List Nat)
    (hfuel : fuel = rem.length)
    (hfaces : ∀ d ∈ rem, 1 ≤ d ∧ d ≤ 6)
    (hsrc : ∀ q, cur = Src.pt q →
      ((pathFor pc).get? curIdx = some q ∨
       (curIdx = (pathFor pc).length ∧ (q = 0 ∨ q = 25)))) :
    findAllMoves pc path fuel cur curIdx rem b pd ≠ [] ↔
      ∃ d ∈ rem, ∃ b1, popSource pc cur b = some b1 ∧
        (checkSingleStepLogic pc cur curIdx d b1 false).isValid = true := by
  cases fuel with
  | zero =>
    have : rem = [] := List.eq_nil_of_length_eq_zero hfuel.symm
    subst this
    simp [findAllMoves]
  | succ f =>
    have hne : rem ≠ [] := by
      intro h
      rw [h] at hfuel
      simp at hfuel
    show (if rem = [] then [] else _) ≠ [] ↔ _
    rw [if_neg hne]
    rw [ne_eq, List.bind_eq_nil]
    push_neg
    constructor
    · rintro ⟨d, hd, hcontrib⟩
      have hd' : d ∈ rem := sortAsc_mem.mp hd
      have := (forEachDie_ne_nil_iff pc path cur curIdx (sortAsc rem) b pd
        (findAllMoves pc path f) d (hfaces d hd').2 hsrc).mp hcontrib
      exact ⟨d, hd', this⟩
    · rintro ⟨d, hd, hstep⟩
      refine ⟨d, sortAsc_mem.mpr hd, ?_⟩
      exact (forEachDie_ne_nil_iff pc path cur curIdx (sortAsc rem) b pd
        (findAllMoves pc path f) d (hfaces d hd).2 hsrc).mpr hstep

/-- `mapSet` keeps the length of the association list. -/
theorem mapSet_length (m : List (Nat × MoveOption)) (k : Nat) (v : MoveOption) :
    (mapSet m k v).length = if m.any (fun kv => kv.1 = k) then m.length else m.length + 1 := by
  induction m with
  | nil => simp [mapSet]
  | cons kv rest ih =>
    by_cases hk : kv.1 = k
    · simp [mapSet, hk]
    · simp only [mapSet, if_neg hk, List.length_cons, ih, List.any_cons]
      have : (decide (kv.1 = k) : Bool) = false := by simp [hk]
      rw [this]
      simp only [Bool.false_or]
      split <;> rfl

/-- `dedupStep` never shrinks the association list. -/
theorem dedupStep_length_ge (m : List (Nat × MoveOption)) (mv : MoveOption) :
    m.length ≤ (dedupStep m mv).length := by
  unfold dedupStep
  dsimp only
  cases hf : m.find? (fun kv => kv.1 = mv.targetPoint) with
  | none => simp
  | some kv =>
    dsimp only
    repeat' split
    all_goals first
      | exact le_refl _
      | (rw [mapSet_length]; split <;> omega)

theorem foldl_dedupStep_length_ge (l : List MoveOption) (m : List (Nat × MoveOption)) :
    m.length ≤ (l.foldl dedupStep m).length := by
  induction l generalizing m with
  | nil => simp
  | cons x xs ih => exact le_trans (dedupStep_length_ge m x) (ih (dedupStep m x))

/-- The unique-target filter returns an empty list iff its input is empty. -/
theorem dedupMoves_eq_nil_iff (l : List MoveOption) : dedupMoves l = [] ↔ l = [] := by
  constructor
  · intro h
    cases l with
    | nil => rfl
    | cons x xs =>
      exfalso
      unfold dedupMoves at h
      have h1 : 1 ≤ ((x :: xs).foldl dedupStep []).length := by
        have : (dedupStep [] x).length = 1 := by
          unfold dedupStep
          simp [mapSet]
        calc 1 = (dedupStep [] x).length := this.symm
        _ ≤ ((x :: xs).foldl dedupStep []).length := by
            rw [List.foldl_cons]
            exact foldl_dedupStep_length_ge xs _
      rw [List.map_eq_nil] at h
      rw [h] at h1
      simp at h1
  · intro h
    subst h
    rfl

theorem isPointBlocked_congr {i : Nat} {pc : Col} {b b' : Board}
    (h : pointAt b' i = pointAt b i) : isPointBlocked i pc b' = isPointBlocked i pc b := by
  unfold isPointBlocked
  rw [h]

theorem pointAt_lt (b : Board) (i : Nat) (h : i < 24) : pointAt b i = b.points ⟨i, h⟩ := by
  unfold pointAt
  rw [dif_pos h]

theorem mem_of_head? {l : List Col} {a : Col} (h : l.head? = some a) : a ∈ l := by
  cases l with
  | nil => cases h
  | cons x xs =>
    simp at h
    subst h
    exact List.mem_cons_self _ _

/-- Past the end of the path, the single-step result is always flagged as a
bear-off attempt. -/
theorem checkSingleStepLogic_isBearingOff_of_ge (pc : Col) (q curIdx die : Nat) (b : Board)
    (hge : curIdx + die ≥ (pathFor pc).length) :
    (checkSingleStepLogic pc (Src.pt q) curIdx die b false).isBearingOff = true := by
  rw [checkSingleStepLogic_pt, if_pos hge]
  by_cases ha : areAllCheckersInHomeBoard pc b = true
  · rw [if_pos ha]
    cases idxOf? (homePointsFor (pc = Col.white)) q with
    | none => rfl
    | some hi =>
      dsimp only
      repeat' split
      all_goals rfl
  · rw [if_neg ha]

/-- A valid step (die face ≤ 6, consistent source index) stays strictly
inside the path. -/
theorem checkSingleStepLogic_valid_lt (pc : Col) (q curIdx die : Nat) (b : Board)
    (hdie : die ≤ 6)
    (hsrc : (pathFor pc).get? curIdx = some q ∨
            (curIdx = (pathFor pc).length ∧ (q = 0 ∨ q = 25)))
    (hv : (checkSingleStepLogic pc (Src.pt q) curIdx die b false).isValid = true) :
    curIdx + die < (pathFor pc).length := by
  by_contra hge
  exact checkSingleStepLogic_not_valid_bearoff pc q curIdx die b hdie hsrc
    ⟨hv, checkSingleStepLogic_isBearingOff_of_ge pc q curIdx die b (not_lt.mp hge)⟩

/-- Bar re-entry generation (lines 1083-1093) is non-empty iff some die
gives a valid entry. -/
theorem calculatePossibleMoves_bar_ne_nil_iff (b : Board) (pc : Col) (dice : List Nat) :
    calculatePossibleMoves Src.bar dice pc b true ≠ [] ↔
      ∃ d ∈ dice, (checkSingleStepLogic pc Src.bar 0 d b true).isValid = true := by
  unfold calculatePossibleMoves
  rw [if_pos ⟨rfl, rfl⟩, ne_eq, List.filterMap_eq_nil_iff]
  push_neg
  constructor
  · rintro ⟨d, hd, hne⟩
    refine ⟨d, hd, ?_⟩
    by_contra hv
    rw [if_neg (by simpa using hv)] at hne
    exact hne rfl
  · rintro ⟨d, hd, hv⟩
    refine ⟨d, hd, ?_⟩
    rw [if_pos hv]
    simp

/-- The full board-source generator characterization: non-empty output iff
the source is a valid own point with some die allowing a first regular step
(bear-off first steps are impossible; see
`checkSingleStepLogic_not_valid_bearoff`). -/
theorem calculatePossibleMoves_pt_ne_nil_iff (b : Board) (pc : Col) (p : Nat)
    (dice : List Nat) (must : Bool)
    (hfaces : ∀ d ∈ dice, 1 ≤ d ∧ d ≤ 6) :
    calculatePossibleMoves (Src.pt p) dice pc b must ≠ [] ↔
      ((1 ≤ p ∧ p ≤ 24) ∧ (pointAt b (p - 1)).head? = some pc ∧
       ∃ k, idxOf? (pathFor pc) p = some k ∧
       ∃ d ∈ dice, ∃ t, k + d < 24 ∧ (pathFor pc).get? (k + d) = some t ∧
         1 ≤ t ∧ t ≤ 24 ∧ isPointBlocked (t - 1) pc b = false) := by
  unfold calculatePossibleMoves
  rw [if_neg (by rintro ⟨h1, h2⟩; cases h2)]
  dsimp only
  rw [show (if pc = Col.white then whitePath else blackPath) = pathFor pc from rfl]
  by_cases hp : 1 ≤ p ∧ p ≤ 24
  case neg =>
    rw [if_neg hp]
    simp [hp]
  rw [if_pos hp]
  by_cases hhead : (pointAt b (p - 1)).head? = some pc
  case neg =>
    rw [if_neg hhead]
    simp [hhead]
  rw [if_pos hhead]
  cases hio : idxOf? (pathFor pc) p with
  | none => simp
  | some k =>
    dsimp only
    have hsrc : ∀ q, Src.pt p = Src.pt q →
        ((pathFor pc).get? k = some q ∨
         (k = (pathFor pc).length ∧ (q = 0 ∨ q = 25))) := by
      rintro q hq
      cases hq
      exact Or.inl (idxOf?_get? hio)
    rw [ne_eq, dedupMoves_eq_nil_iff, ← ne_eq,
      findAllMoves_ne_nil_iff pc (pathFor pc) dice.length (Src.pt p) k dice b [] rfl
        hfaces hsrc]
    have hb1 : popSource pc (Src.pt p) b
        = some (pointsUpdate b (p - 1) (pointAt b (p - 1)).dropLast) :=
      popSource_pt pc p b hp hhead
    set b1 := pointsUpdate b (p - 1) (pointAt b (p - 1)).dropLast with hb1def
    constructor
    · rintro ⟨d, hd, b1', hpop, hv⟩
      rw [hb1, Option.some.injEq] at hpop
      subst hpop
      have hlt := checkSingleStepLogic_valid_lt pc p k d b1 (hfaces d hd).2
        (hsrc p rfl) hv
      obtain ⟨t, hget, ht1, ht2, hnbl, -, -⟩ :=
        checkSingleStepLogic_valid_regular pc p k d b1 hlt hv
      have hpt : p ≠ t := by
        have hd1 : 1 ≤ d := (hfaces d hd).1
        exact nodup_get?_ne (pathFor_nodup pc) (idxOf?_get? hio) hget (by omega)
      have heq : pointAt b1 (t - 1) = pointAt b (t - 1) :=
        pointAt_pointsUpdate_other _ _ _ _ (by omega)
      refine ⟨hp, hhead, k, rfl, d, hd, t,
        by rw [pathFor_length] at hlt; exact hlt, hget, ht1, ht2, ?_⟩
      rw [← isPointBlocked_congr heq]
      exact hnbl
    · rintro ⟨-, -, k', hk', d, hd, t, hlt24, hget, ht1, ht2, hnb⟩
      rw [Option.some.injEq] at hk'
      subst hk'
      refine ⟨d, hd, b1, hb1.symm ▸ rfl, ?_⟩
      have hpt : p ≠ t := by
        have hd1 : 1 ≤ d := (hfaces d hd).1
        exact nodup_get?_ne (pathFor_nodup pc) (idxOf?_get? hio) hget (by omega)
      have heq : pointAt b1 (t - 1) = pointAt b (t - 1) :=
        pointAt_pointsUpdate_other _ _ _ _ (by omega)
      exact checkSingleStepLogic_regular_valid pc p k d t b1
        (by rw [pathFor_length]; exact hlt24) hget ht1 ht2
        (by rw [isPointBlocked_congr heq]; exact hnb)

/-- The bar-entry test of `checkIfAnyPossibleMoves` coincides with the
validity of the generator's bar-entry step (they run the same lines). -/
theorem checkIfAnyBarEntry_iff (b : Board) (pc : Col) (d : Nat) :
    checkIfAnyBarEntry b pc d = true ↔
      (checkSingleStepLogic pc Src.bar 0 d b true).isValid = true := by
  unfold checkIfAnyBarEntry
  rw [checkSingleStepLogic_bar]
  dsimp only
  by_cases hc : 1 ≤ (if pc = Col.white then d else 18 + d) ∧
      (if pc = Col.white then d else 18 + d) ≤ 24 ∧
      ¬(isPointBlocked ((if pc = Col.white then d else 18 + d) - 1) pc b = true)
  · rw [if_pos hc]
    simp only [Bool.and_eq_true, decide_eq_true_eq, Bool.not_eq_true']
    constructor
    · intro _
      trivial
    · intro _
      exact ⟨⟨hc.1, hc.2.1⟩, by simpa using hc.2.2⟩
  · rw [if_neg hc]
    simp only [Bool.and_eq_true, decide_eq_true_eq, Bool.not_eq_true']
    constructor
    · rintro ⟨⟨h1, h2⟩, h3⟩
      exact absurd ⟨h1, h2, by simp [h3]⟩ hc
    · intro h
      cases h

/-- The bear-off test of `checkIfAnyPossibleMoves` fails whenever the
source point is outside the hard-coded home region. -/
theorem checkIfAnyBearOff_false (b : Board) (pc : Col) (p die : Nat)
    (hnot : ¬(p ∈ homePointsFor (pc = Col.white))) :
    checkIfAnyBearOff b pc p die = false := by
  unfold checkIfAnyBearOff
  dsimp only
  by_cases ha : areAllCheckersInHomeBoard pc b = true
  · rw [if_pos ha, idxOf?_eq_none_iff.mpr hnot]
    simp
  · rw [if_neg ha]

/-- The per-die board test of `checkIfAnyPossibleMoves`, for die faces 1-6
and a source actually on the path: true iff the single regular step is
open. -/
theorem checkIfAnyDie_iff (b : Board) (pc : Col) (p k die : Nat)
    (hdie : 1 ≤ die ∧ die ≤ 6) (hp : (pathFor pc).get? k = some p) :
    checkIfAnyDie b pc p k die = true ↔
      ∃ t, k + die < 24 ∧ (pathFor pc).get? (k + die) = some t ∧ 1 ≤ t ∧ t ≤ 24 ∧
        isPointBlocked (t - 1) pc b = false := by
  unfold checkIfAnyDie
  dsimp only
  rw [show (if pc = Col.white then whitePath else blackPath) = pathFor pc from rfl]
  by_cases hge : k + die ≥ (pathFor pc).length
  · rw [if_pos hge]
    have hklt : k < (pathFor pc).length := (List.get?_eq_some.mp hp).1
    have hnot : ¬(p ∈ homePointsFor (pc = Col.white)) := by
      have h18 : 18 ≤ k := by
        rw [pathFor_length] at hge
        omega
      have hgd := pathFor_tail_not_in_home pc k (by rw [pathFor_length] at hklt; exact hklt) h18
      rwa [getD_of_get? hp] at hgd
    rw [checkIfAnyBearOff_false b pc p die hnot]
    constructor
    · intro h
      cases h
    · rintro ⟨t, hlt, -⟩
      rw [pathFor_length] at hge
      omega
  · rw [if_neg hge]
    have hlt : k + die < 24 := by
      rw [pathFor_length] at hge
      omega
    cases hget : (pathFor pc).get? (k + die) with
    | none => simp
    | some t =>
      dsimp only
      simp only [Bool.and_eq_true, decide_eq_true_eq, Bool.not_eq_true']
      constructor
      · rintro ⟨⟨h1, h2⟩, h3⟩
        exact ⟨t, hlt, rfl, h1, h2, h3⟩
      · rintro ⟨t', hlt', hget', h1, h2, h3⟩
        rw [Option.some.injEq] at hget'
        subst hget'
        exact ⟨⟨h1, h2⟩, h3⟩

/-- `checkIfAnyPossibleMoves` with bar checkers: true iff some die enters. -/
theorem checkIfAnyPossibleMoves_bar_iff (b : Board) (pc : Col) (dice : List Nat)
    (hbar : 0 < b.bar pc) :
    checkIfAnyPossibleMoves b pc dice = true ↔
      ∃ d ∈ dice, (checkSingleStepLogic pc Src.bar 0 d b true).isValid = true := by
  unfold checkIfAnyPossibleMoves
  dsimp only
  rw [if_pos hbar, List.any_eq_true]
  constructor
  · rintro ⟨d, hd, hok⟩
    exact ⟨d, hd, (checkIfAnyBarEntry_iff b pc d).mp hok⟩
  · rintro ⟨d, hd, hok⟩
    exact ⟨d, hd, (checkIfAnyBarEntry_iff b pc d).mpr hok⟩

/-- `checkIfAnyPossibleMoves` without bar checkers: true iff some own point
has an open single regular step (bear-offs never fire, given die faces). -/
theorem checkIfAnyPossibleMoves_board_iff (b : Board) (pc : Col) (dice : List Nat)
    (hbar : b.bar pc = 0) (hfaces : ∀ d ∈ dice, 1 ≤ d ∧ d ≤ 6) :
    checkIfAnyPossibleMoves b pc dice = true ↔
      ∃ i : Fin 24, (b.points i).head? = some pc ∧
        ∃ k, idxOf? (pathFor pc) (i.val + 1) = some k ∧
        ∃ d ∈ dice, ∃ t, k + d < 24 ∧ (pathFor pc).get? (k + d) = some t ∧
          1 ≤ t ∧ t ≤ 24 ∧ isPointBlocked (t - 1) pc b = false := by
  unfold checkIfAnyPossibleMoves
  dsimp only
  rw [if_neg (by omega), List.any_eq_true]
  rw [show (if pc = Col.white then whitePath else blackPath) = pathFor pc from rfl]
  constructor
  · rintro ⟨i, -, hbody⟩
    rw [Bool.and_eq_true] at hbody
    obtain ⟨hhead, hrest⟩ := hbody
    rw [Bool.and_eq_true, decide_eq_true_eq] at hhead
    refine ⟨i, hhead.2, ?_⟩
    revert hrest
    cases hio : idxOf? (pathFor pc) (i.val + 1) with
    | none =>
      intro h
      cases h
    | some k =>
      intro hrest
      rw [List.any_eq_true] at hrest
      obtain ⟨d, hd, hok⟩ := hrest
      obtain ⟨t, ht⟩ := (checkIfAnyDie_iff b pc (i.val + 1) k d (hfaces d hd)
        (idxOf?_get? hio)).mp hok
      exact ⟨k, rfl, d, hd, t, ht⟩
  · rintro ⟨i, hhead, k, hio, d, hd, t, hstep⟩
    refine ⟨i, List.mem_finRange i, ?_⟩
    rw [Bool.and_eq_true]
    constructor
    · rw [Bool.and_eq_true, decide_eq_true_eq]
      refine ⟨?_, hhead⟩
      simp only [Bool.not_eq_true']
      rw [List.isEmpty_eq_false_iff_exists_mem]
      exact ⟨pc, mem_of_head? hhead⟩
    · rw [hio]
      dsimp only
      rw [List.any_eq_true]
      exact ⟨d, hd, (checkIfAnyDie_iff b pc (i.val + 1) k d (hfaces d hd)
        (idxOf?_get? hio)).mpr ⟨t, hstep⟩⟩

/-- C5.  `checkIfAnyPossibleMoves` returns true iff the move generator,
applied to some valid source (the bar when the color has bar checkers,
otherwise some point occupied by that color), returns a non-empty list. -/
theorem c5_checkIfAny_iff_generator_nonempty (b : Board) (pc : Col) (dice : List Nat)
    (hne : dice ≠ []) (hfaces : ∀ d ∈ dice, 1 ≤ d ∧ d ≤ 6) :
    checkIfAnyPossibleMoves b pc dice = true ↔
      (if 0 < b.bar pc then
        calculatePossibleMoves Src.bar dice pc b true ≠ []
      else
        ∃ p, 1 ≤ p ∧ p ≤ 24 ∧ pc ∈ pointAt b (p - 1) ∧
          calculatePossibleMoves (Src.pt p) dice pc b false ≠ []) := by
  by_cases hbar : 0 < b.bar pc
  · rw [if_pos hbar, checkIfAnyPossibleMoves_bar_iff b pc dice hbar,
      calculatePossibleMoves_bar_ne_nil_iff]
  · rw [if_neg hbar]
    have hbar0 : b.bar pc = 0 := by omega
    rw [checkIfAnyPossibleMoves_board_iff b pc dice hbar0 hfaces]
    constructor
    · rintro ⟨i, hhead, k, hio, d, hd, t, hstep⟩
      have hi24 : (i.val : Nat) < 24 := i.isLt
      refine ⟨i.val + 1, by omega, by omega, ?_, ?_⟩
      · rw [Nat.add_sub_cancel, pointAt_lt b i.val hi24]
        exact mem_of_head? (by simpa using hhead)
      · rw [calculatePossibleMoves_pt_ne_nil_iff b pc (i.val + 1) dice false hfaces]
        refine ⟨⟨by omega, by omega⟩, ?_, k, hio, d, hd, t, hstep⟩
        rw [Nat.add_sub_cancel, pointAt_lt b i.val hi24]
        simpa using hhead
    · rintro ⟨p, hp1, hp2, hmem, hcne⟩
      rw [calculatePossibleMoves_pt_ne_nil_iff b pc p dice false hfaces] at hcne
      obtain ⟨⟨-, -⟩, hhead, k, hio, d, hd, t, hstep⟩ := hcne
      refine ⟨⟨p - 1, by omega⟩, ?_, k, ?_, d, hd, t, hstep⟩
      · rw [← pointAt_lt b (p - 1) (by omega)]
        exact hhead
      · have : p - 1 + 1 = p := by omega
        rw [this]
        exact hio

/-- C5 witness: the equivalence instantiated at the standard starting board
for White with a double-six roll.  Both sides hold: the move generator from
point 1 is non-empty. -/
theorem c5_checkIfAny_iff_generator_nonempty_witness :
    ([6, 6, 6, 6] ≠ ([] : List Nat)) ∧ (∀ d ∈ [6, 6, 6, 6], 1 ≤ d ∧ d ≤ 6) ∧
    (checkIfAnyPossibleMoves initializeBoard Col.white [6, 6, 6, 6] = true ↔
      (if 0 < initializeBoard.bar Col.white then
        calculatePossibleMoves Src.bar [6, 6, 6, 6] Col.white initializeBoard true ≠ []
      else
        ∃ p, 1 ≤ p ∧ p ≤ 24 ∧ Col.white ∈ pointAt initializeBoard (p - 1) ∧
          calculatePossibleMoves (Src.pt p) [6, 6, 6, 6] Col.white initializeBoard false
            ≠ [])) :=
  ⟨by decide, by decide,
    c5_checkIfAny_iff_generator_nonempty initializeBoard Col.white [6, 6, 6, 6]
      (by decide) (by decide)⟩

theorem sum_count_update (f : Fin 24 → List Col) (i : Fin 24) (l : List Col) (c : Col) :
    (∑ j : Fin 24, ((Function.update f i l) j).count c) + (f i).count c
      = (∑ j : Fin 24, ((f j).count c)) + l.count c := by
  have hrw : ∀ j : Fin 24, ((Function.update f i l) j).count c
      = Function.update (fun k => ((f k).count c)) i (l.count c) j :=
    fun j => Function.apply_update (fun _ lst => lst.count c) f i l j
  rw [Finset.sum_congr rfl (fun j _ => hrw j),
    Finset.sum_update_of_mem (Finset.mem_univ i)]
  conv_rhs => rw [← Finset.sum_erase_add Finset.univ _ (Finset.mem_univ i)]
  rw [← Finset.sdiff_singleton_eq_erase]
  omega

theorem checkerCount_pointsUpdate (b : Board) (idx : Nat) (l : List Col) (c : Col)
    (h : idx < 24) :
    checkerCount (pointsUpdate b idx l) c + (pointAt b idx).count c
      = checkerCount b c + l.count c := by
  unfold checkerCount pointsUpdate pointAt
  rw [dif_pos h, dif_pos h]
  dsimp only
  have := sum_count_update b.points ⟨idx, h⟩ l c
  omega

theorem checkerCount_barInc (b : Board) (c' c : Col) :
    checkerCount (barInc b c') c = checkerCount b c + (if c' = c then 1 else 0) := by
  unfold checkerCount barInc barUpd
  dsimp only
  by_cases hc : c' = c
  · subst hc
    rw [Function.update_same, if_pos rfl]
    omega
  · rw [Function.update_noteq (Ne.symm hc), if_neg hc]
    omega

theorem checkerCount_barDec (b : Board) (c' c : Col) (hpos : 0 < b.bar c') :
    checkerCount (barDec b c') c + (if c' = c then 1 else 0) = checkerCount b c := by
  unfold checkerCount barDec barUpd
  dsimp only
  by_cases hc : c' = c
  · subst hc
    rw [Function.update_same, if_pos rfl]
    have h1 : b.bar c' - 1 + 1 = b.bar c' := Nat.succ_pred_eq_of_pos hpos
    omega
  · rw [Function.update_noteq (Ne.symm hc), if_neg hc]
    omega

theorem checkerCount_homeInc (b : Board) (c' c : Col) :
    checkerCount (homeInc b c') c = checkerCount b c + (if c' = c then 1 else 0) := by
  unfold checkerCount homeInc homeUpd
  dsimp only
  by_cases hc : c' = c
  · subst hc
    rw [Function.update_same, if_pos rfl]
    omega
  · rw [Function.update_noteq (Ne.symm hc), if_neg hc]
    omega

theorem count_singleton_ite (a c : Col) :
    List.count c [a] = (if a = c then 1 else 0) := by
  by_cases hc : a = c
  · subst hc
    rw [if_pos rfl]
    simp
  · rw [if_neg hc]
    simp only [List.count_singleton']
    simp [hc]

theorem count_dropLast_add (cs : List Col) (c : Col) (hne : cs ≠ []) :
    cs.dropLast.count c + (if cs.getLast? = some c then 1 else 0) = cs.count c := by
  conv_rhs => rw [← List.dropLast_append_getLast hne]
  rw [List.count_append, List.getLast?_eq_getLast cs hne, count_singleton_ite]
  by_cases hc : cs.getLast hne = c
  · rw [if_pos hc, if_pos (by rw [hc])]
  · rw [if_neg hc, if_neg (by simpa using hc)]

theorem count_append_singleton (cs : List Col) (a c : Col) :
    (cs ++ [a]).count c = cs.count c + (if a = c then 1 else 0) := by
  rw [List.count_append, count_singleton_ite]

/-! ### Bounds on generated move options (toward C1) -/

theorem mapSet_mem {m : List (Nat × MoveOption)} {k : Nat} {v : MoveOption}
    {kv : Nat × MoveOption} (h : kv ∈ mapSet m k v) : kv.2 = v ∨ kv ∈ m := by
  induction m with
  | nil =>
    simp [mapSet] at h
    subst h
    exact Or.inl rfl
  | cons kv' rest ih =>
    by_cases hk : kv'.1 = k
    · rw [mapSet, if_pos hk] at h
      rcases List.mem_cons.mp h with h | h
      · subst h
        exact Or.inl rfl
      · exact Or.inr (List.mem_cons_of_mem _ h)
    · rw [mapSet, if_neg hk] at h
      rcases List.mem_cons.mp h with h | h
      · subst h
        exact Or.inr (List.mem_cons_self _ _)
      · rcases ih h with h' | h'
        · exact Or.inl h'
        · exact Or.inr (List.mem_cons_of_mem _ h')

theorem dedupStep_mem {m : List (Nat × MoveOption)} {mv : MoveOption}
    {kv : Nat × MoveOption} (h : kv ∈ dedupStep m mv) : kv.2 = mv ∨ kv ∈ m := by
  unfold dedupStep at h
  dsimp only at h
  revert h
  cases hf : m.find? (fun kv => kv.1 = mv.targetPoint) with
  | none =>
    intro h
    dsimp only at h
    rcases List.mem_append.mp h with h | h
    · exact Or.inr h
    · rw [List.mem_singleton] at h
      subst h
      exact Or.inl rfl
  | some kv' =>
    intro h
    dsimp only at h
    by_cases h1 : mv.diceUsed ≠ kv'.2.diceUsed
    · rw [if_pos h1] at h
      by_cases h2 : mv.diceUsed.length < kv'.2.diceUsed.length
      · rw [if_pos h2] at h
        exact mapSet_mem h
      · rw [if_neg h2] at h
        by_cases h3 : mv.diceUsed.length = kv'.2.diceUsed.length ∧
            mv.diceUsed.foldl (· + ·) 0 > kv'.2.diceUsed.foldl (· + ·) 0
        · rw [if_pos h3] at h
          exact mapSet_mem h
        · rw [if_neg h3] at h
          exact Or.inr h
    · rw [if_neg h1] at h
      exact Or.inr h

theorem dedupMoves_mem {l : List MoveOption} {mv : MoveOption}
    (h : mv ∈ dedupMoves l) : mv ∈ l := by
  unfold dedupMoves at h
  rw [List.mem_map] at h
  obtain ⟨kv, hkv, hkv2⟩ := h
  subst hkv2
  -- fold invariant: every stored value comes from the processed moves
  suffices haux : ∀ (l : List MoveOption) (m0 : List (Nat × MoveOption)),
      kv ∈ l.foldl dedupStep m0 → kv.2 ∈ l ∨ kv ∈ m0 by
    rcases haux l [] hkv with h | h
    · exact h
    · cases h
  intro l
  induction l with
  | nil =>
    intro m0 h
    exact Or.inr h
  | cons x xs ih =>
    intro m0 h
    rw [List.foldl_cons] at h
    rcases ih (dedupStep m0 x) h with h' | h'
    · exact Or.inl (List.mem_cons_of_mem _ h')
    · rcases dedupStep_mem h' with h'' | h''
      · rw [h'']
        exact Or.inl (List.mem_cons_self _ _)
      · exact Or.inr h''

/-- Every move the recursive search produces has a board-point target 1-24
and uses only dice drawn from the remaining dice and the accumulated path
dice. -/
theorem findAllMoves_mem_bound (pc : Col) :
    ∀ (fuel : Nat) (cur : Src) (curIdx : Nat) (rem : List Nat) (b : Board)
      (pd : List Nat),
      fuel = rem.length →
      (∀ d ∈ rem, 1 ≤ d ∧ d ≤ 6) →
      (∀ d ∈ pd, 1 ≤ d ∧ d ≤ 6) →
      (∀ q, cur = Src.pt q →
        ((pathFor pc).get? curIdx = some q ∨
         (curIdx = (pathFor pc).length ∧ (q = 0 ∨ q = 25)))) →
      ∀ m ∈ findAllMoves pc (pathFor pc) fuel cur curIdx rem b pd,
        (1 ≤ m.targetPoint ∧ m.targetPoint ≤ 24) ∧
        ∀ d ∈ m.diceUsed, 1 ≤ d ∧ d ≤ 6 := by
  intro fuel
  induction fuel with
  | zero =>
    intro cur curIdx rem b pd _ _ _ _ m hm
    cases hm
  | succ f ih =>
    intro cur curIdx rem b pd hfuel hrem hpd hsrc m hm
    have hne : rem ≠ [] := by
      intro h
      rw [h] at hfuel
      cases hfuel
    rw [show findAllMoves pc (pathFor pc) (f + 1) cur curIdx rem b pd
        = if rem = [] then [] else (sortAsc rem).flatMap
            (forEachDie pc (pathFor pc) cur curIdx (sortAsc rem) b pd
              (findAllMoves pc (pathFor pc) f)) from rfl,
      if_neg hne] at hm
    rw [List.mem_flatMap] at hm
    obtain ⟨d1, hd1, hmf⟩ := hm
    have hd1' : d1 ∈ rem := sortAsc_mem.mp hd1
    have hd1f := hrem d1 hd1'
    -- unfold one forEachDie iteration
    unfold forEachDie at hmf
    revert hmf
    cases hpop : popSource pc cur b with
    | none =>
      intro hmf
      cases hmf
    | some b1 =>
      dsimp only
      by_cases hv : (checkSingleStepLogic pc cur curIdx d1 b1 false).isValid = true
      case neg =>
        rw [if_neg hv]
        intro hmf
        cases hmf
      rw [if_pos hv]
      cases cur with
      | bar =>
        rw [checkSingleStepLogic_bar_false] at hv
        cases hv
      | pt q =>
        have hlt := checkSingleStepLogic_valid_lt pc q curIdx d1 b1 hd1f.2 (hsrc q rfl) hv
        obtain ⟨t, hget, ht1, ht2, hnbl, htarget, hbearf⟩ :=
          checkSingleStepLogic_valid_regular pc q curIdx d1 b1 hlt hv
        rw [htarget]
        dsimp only
        rw [if_pos (by simp [hbearf])]
        have hfaces' : ∀ d ∈ sortAsc (pd ++ [d1]), 1 ≤ d ∧ d ≤ 6 := by
          intro d hd
          rcases List.mem_append.mp (sortAsc_mem.mp hd) with h | h
          · exact hpd d h
          · simp at h
            subst h
            exact hd1f
        rw [if_neg (by rw [hit_recheck_not_blocked pc b1 (t - 1) hnbl]; simp)]
        intro hmf
        rcases List.mem_cons.mp hmf with hmf | hmf
        · subst hmf
          exact ⟨⟨ht1, ht2⟩, hfaces'⟩
        · revert hmf
          cases hidx : idxOf? (pathFor pc) t with
          | none =>
            intro hmf
            cases hmf
          | some tIdx =>
            dsimp only
            by_cases hrem' : (sortAsc rem).erase d1 ≠ []
            case neg =>
              rw [if_neg hrem']
              intro hmf
              cases hmf
            rw [if_pos hrem']
            intro hmf
            refine ih (Src.pt t) tIdx ((sortAsc rem).erase d1) _ (sortAsc (pd ++ [d1]))
              ?_ ?_ hfaces' ?_ m hmf
            · have h1 : (sortAsc rem).length = rem.length := by
                unfold sortAsc
                exact List.length_insertionSort _ _
              have h2 := List.length_erase_of_mem hd1
              omega
            · intro d hd
              exact hrem d (sortAsc_mem.mp (List.erase_subset _ _ hd))
            · rintro q' hq'
              cases hq'
              exact Or.inl (idxOf?_get? hidx)

/-- Every option `calculatePossibleMoves` returns targets a board point
1-24 (never the bear-off sentinels 0/25) and consumes only face values
drawn from the supplied dice. -/
theorem calculatePossibleMoves_mem_bound (fromPoint : Src) (dice : List Nat) (pc : Col)
    (board : Board) (must : Bool)
    (hfaces : ∀ d ∈ dice, 1 ≤ d ∧ d ≤ 6) :
    ∀ m ∈ calculatePossibleMoves fromPoint dice pc board must,
      (1 ≤ m.targetPoint ∧ m.targetPoint ≤ 24) ∧
      ∀ d ∈ m.diceUsed, 1 ≤ d ∧ d ≤ 6 := by
  intro m hm
  unfold calculatePossibleMoves at hm
  by_cases hbar : must = true ∧ fromPoint = Src.bar
  · rw [if_pos hbar] at hm
    rw [List.mem_filterMap] at hm
    obtain ⟨d, hd, hsome⟩ := hm
    revert hsome
    by_cases hv : (checkSingleStepLogic pc Src.bar 0 d board true).isValid = true
    case neg =>
      rw [if_neg hv]
      intro hsome
      cases hsome
    rw [if_pos hv]
    intro hsome
    rw [Option.some.injEq] at hsome
    subst hsome
    rw [checkSingleStepLogic_bar] at hv ⊢
    revert hv
    dsimp only
    by_cases hcond : 1 ≤ (if pc = Col.white then d else 18 + d) ∧
        (if pc = Col.white then d else 18 + d) ≤ 24 ∧
        ¬(isPointBlocked ((if pc = Col.white then d else 18 + d) - 1) pc board = true)
    case neg =>
      rw [if_neg hcond]
      intro hv
      cases hv
    rw [if_pos hcond]
    intro _
    dsimp only
    refine ⟨⟨hcond.1, hcond.2.1⟩, ?_⟩
    intro d' hd'
    simp at hd'
    subst hd'
    exact hfaces _ hd
  · rw [if_neg hbar] at hm
    revert hm
    cases fromPoint with
    | bar =>
      intro hm
      cases hm
    | pt p =>
      dsimp only
      rw [show (if pc = Col.white then whitePath else blackPath) = pathFor pc from rfl]
      by_cases hp : 1 ≤ p ∧ p ≤ 24
      case neg =>
        rw [if_neg hp]
        intro hm
        cases hm
      rw [if_pos hp]
      by_cases hhead : (pointAt board (p - 1)).head? = some pc
      case neg =>
        rw [if_neg hhead]
        intro hm
        cases hm
      rw [if_pos hhead]
      cases hio : idxOf? (pathFor pc) p with
        | none =>
          intro hm
          cases hm
        | some k =>
          dsimp only
          intro hm
          exact findAllMoves_mem_bound pc dice.length (Src.pt p) k dice board []
            rfl hfaces (by intro d hd; cases hd)
            (by rintro q hq; cases hq; exact Or.inl (idxOf?_get? hio))
            m (dedupMoves_mem hm)

theorem getOpponentColor_ne (p : Col) (hp : p = Col.white ∨ p = Col.black) :
    getOpponentColor p ≠ p := by
  rcases hp with rfl | rfl <;> decide

theorem engineInv_msg (s : GameState) (msg : String) (h : EngineInv s) :
    EngineInv { s with gameMessage := msg } := by
  obtain ⟨p, cw, cb, dc, pm, hs, sl, bh⟩ := h
  exact ⟨p, cw, cb, dc, pm, hs, sl, bh⟩

theorem engineInv_initial : EngineInv initialState := by
  refine ⟨Or.inl rfl, by decide, by decide, ?_, ?_, ?_, ?_, ?_⟩
  · intro d hd
    cases hd
  · intro m hm
    cases hm
  · intro r hr
    cases hr
  · intro n hn
    cases hn
  · intro c
    exact Nat.zero_le _

theorem engineInv_roll (s : GameState) (d1 d2 : Nat) (h : EngineInv s)
    (h1 : 1 ≤ d1) (h2 : d1 ≤ 6) (h3 : 1 ≤ d2) (h4 : d2 ≤ 6) :
    EngineInv (rollDiceHandler s d1 d2) := by
  unfold rollDiceHandler
  split
  · exact h
  · refine ⟨h.player, h.countW, h.countB, ?_, ?_, ?_, ?_, ?_⟩
    · intro d hd
      dsimp only at hd
      split at hd
      · simp at hd
        subst hd
        exact ⟨h1, h2⟩
      · simp at hd
        rcases hd with rfl | rfl
        · exact ⟨h1, h2⟩
        · exact ⟨h3, h4⟩
    · intro m hm
      cases hm
    · intro r hr
      cases hr
    · intro n hn
      cases hn
    · intro c
      exact Nat.zero_le _

theorem engineInv_endTurn (s : GameState) (h : EngineInv s) : EngineInv (endTurn s) := by
  unfold endTurn
  split
  · exact h
  split
  · refine ⟨Or.inl rfl, (by decide : checkerCount initializeBoard Col.white = 15),
      (by decide : checkerCount initializeBoard Col.black = 15), ?_, ?_, ?_, ?_, ?_⟩
    · intro d hd
      cases hd
    · intro m hm
      cases hm
    · intro r hr
      cases hr
    · intro n hn
      cases hn
    · intro c
      exact Nat.zero_le _
  split
  · refine ⟨Or.inr rfl, (by decide : checkerCount initializeBoard Col.white = 15),
      (by decide : checkerCount initializeBoard Col.black = 15), ?_, ?_, ?_, ?_, ?_⟩
    · intro d hd
      cases hd
    · intro m hm
      cases hm
    · intro r hr
      cases hr
    · intro n hn
      cases hn
    · intro c
      exact Nat.zero_le _
  · refine ⟨?_, h.countW, h.countB, ?_, ?_, ?_, ?_, ?_⟩
    · dsimp only
      split
      · exact Or.inr rfl
      · exact Or.inl rfl
    · intro d hd
      cases hd
    · intro m hm
      cases hm
    · intro r hr
      cases hr
    · intro n hn
      cases hn
    · intro c
      exact Nat.zero_le _

theorem consumeDice_mem {avail du : List Nat} :
    ∀ d ∈ consumeDice avail du, d ∈ avail := by
  unfold consumeDice
  induction du generalizing avail with
  | nil =>
    intro d hd
    exact hd
  | cons d0 rest ih =>
    intro d hd
    rw [List.foldl_cons] at hd
    exact List.erase_subset _ _ (ih d hd)

/-- Invariant preservation for the common (non-bear-off, in-range target)
tail of `performMove`, abstracted over the already-popped board `b1` and
the moving checker `ctm`. -/
theorem engineInv_moveResult (s : GameState) (fp : Src) (toPoint : Nat) (du : List Nat)
    (b1 : Board) (ctm : Col)
    (h : EngineInv s)
    (hto : 1 ≤ toPoint ∧ toPoint ≤ 24)
    (hdu : ∀ d ∈ du, 1 ≤ d ∧ d ≤ 6)
    (hfrom : fp = Src.bar ∨ ∃ n, fp = Src.pt n ∧ 1 ≤ n ∧ n ≤ 24)
    (hcount : ∀ c, checkerCount b1 c + (if ctm = c then 1 else 0)
      = checkerCount s.boardState c)
    (hbarc : ∀ c, s.moveHistory.countP (histPred c) ≤ b1.bar c) :
    EngineInv
      (let csTo := pointAt b1 (toPoint - 1)
       let hitOpponentChecker := ¬(toPoint = 0 ∨ toPoint = 25) ∧ csTo.length = 1 ∧
         csTo.head? = some (getOpponentColor s.currentPlayer)
       let b2 := if hitOpponentChecker then
           barInc (pointsUpdate b1 (toPoint - 1) csTo.dropLast)
             (getOpponentColor s.currentPlayer)
         else b1
       let b3 := pointsUpdate b2 (toPoint - 1) (pointAt b2 (toPoint - 1) ++ [ctm])
       { s with
          boardState := b3, selectedPoint := none,
          availableDice := consumeDice s.availableDice du, possibleMovesInfo := [],
          moveHistory := s.moveHistory ++ [⟨fp, toPoint, s.currentPlayer,
            hitOpponentChecker,
            if hitOpponentChecker then some (getOpponentColor s.currentPlayer) else none,
            du⟩],
          gameMessage := "Move made!" }) := by
  dsimp only
  have hlt24 : toPoint - 1 < 24 := by omega
  set opp := getOpponentColor s.currentPlayer with hopp
  set csTo := pointAt b1 (toPoint - 1) with hcsTo
  by_cases hhit : ¬(toPoint = 0 ∨ toPoint = 25) ∧ csTo.length = 1 ∧
      csTo.head? = some opp
  · rw [if_pos hhit, if_pos hhit]
    -- the blot is a single opp-colored checker
    obtain ⟨a, ha⟩ := List.length_eq_one.mp hhit.2.1
    have haopp : a = opp := by
      have := hhit.2.2
      rw [ha] at this
      simpa using this
    subst haopp
    have hdropnil : csTo.dropLast = [] := by rw [ha]; rfl
    have hccc : ∀ c, checkerCount
        (pointsUpdate (barInc (pointsUpdate b1 (toPoint - 1) csTo.dropLast) opp)
          (toPoint - 1)
          (pointAt (barInc (pointsUpdate b1 (toPoint - 1) csTo.dropLast) opp)
            (toPoint - 1) ++ [ctm])) c
        = checkerCount s.boardState c := by
      intro c
      have e1 := checkerCount_pointsUpdate b1 (toPoint - 1) csTo.dropLast c hlt24
      have e2 := checkerCount_barInc (pointsUpdate b1 (toPoint - 1) csTo.dropLast) opp c
      have hpb2 : pointAt (barInc (pointsUpdate b1 (toPoint - 1) csTo.dropLast) opp)
          (toPoint - 1) = csTo.dropLast := by
        rw [pointAt_barInc, pointAt_pointsUpdate_self _ _ _ hlt24]
      have e3 := checkerCount_pointsUpdate
        (barInc (pointsUpdate b1 (toPoint - 1) csTo.dropLast) opp) (toPoint - 1)
        (pointAt (barInc (pointsUpdate b1 (toPoint - 1) csTo.dropLast) opp)
          (toPoint - 1) ++ [ctm]) c hlt24
      have e4 := hcount c
      have e5 : csTo.count c = (if opp = c then 1 else 0) := by
        rw [ha, count_singleton_ite]
      have e6 : (csTo.dropLast).count c = 0 := by
        rw [hdropnil, List.count_nil]
      have e7 : ((pointAt (barInc (pointsUpdate b1 (toPoint - 1) csTo.dropLast) opp)
          (toPoint - 1)) ++ [ctm]).count c = (if ctm = c then 1 else 0) := by
        rw [count_append_singleton, hpb2, e6, Nat.zero_add]
      have e8 : (pointAt (barInc (pointsUpdate b1 (toPoint - 1) csTo.dropLast) opp)
          (toPoint - 1)).count c = 0 := by
        rw [hpb2, e6]
      rw [e7, e8] at e3
      rw [e6, e5] at e1
      by_cases hoc : opp = c
      · rw [if_pos hoc] at e1 e2
        by_cases hctm : ctm = c
        · rw [if_pos hctm] at e3 e4
          omega
        · rw [if_neg hctm] at e3 e4
          omega
      · rw [if_neg hoc] at e1 e2
        by_cases hctm : ctm = c
        · rw [if_pos hctm] at e3 e4
          omega
        · rw [if_neg hctm] at e3 e4
          omega
    refine ⟨h.player, ?_, ?_, ?_, ?_, ?_, ?_, ?_⟩
    · exact (hccc Col.white).trans h.countW
    · exact (hccc Col.black).trans h.countB
    · intro d hd
      exact h.dice d (consumeDice_mem d hd)
    · intro m hm
      cases hm
    · intro r hr
      rcases List.mem_append.mp hr with hr | hr
      · exact h.hist r hr
      · rw [List.mem_singleton] at hr
        subst hr
        exact ⟨hto, hdu, hfrom, fun _ => rfl⟩
    · intro n hn
      cases hn
    · intro c
      rw [List.countP_append, List.countP_cons, List.countP_nil]
      have hbar3 : (pointsUpdate (barInc (pointsUpdate b1 (toPoint - 1) csTo.dropLast) opp)
          (toPoint - 1)
          (pointAt (barInc (pointsUpdate b1 (toPoint - 1) csTo.dropLast) opp)
            (toPoint - 1) ++ [ctm])).bar
          = Function.update b1.bar opp (b1.bar opp + 1) := by
        rw [bar_pointsUpdate, bar_barInc, bar_pointsUpdate]
      rw [hbar3]
      have hpred : histPred c ⟨fp, toPoint, s.currentPlayer, decide (¬(toPoint = 0 ∨
          toPoint = 25) ∧ csTo.length = 1 ∧ csTo.head? = some opp),
          some opp, du⟩
          = decide (opp = c) := by
        unfold histPred
        dsimp only
        rw [decide_eq_true hhit]
        simp
      by_cases hoc : opp = c
      · subst hoc
        rw [Function.update_same]
        have := hbarc opp
        simp only [hpred]
        simp
        omega
      · rw [Function.update_noteq (Ne.symm hoc)]
        have := hbarc c
        simp only [hpred]
        simp [hoc]
        omega
  · rw [if_neg hhit, if_neg hhit]
    have hccc : ∀ c, checkerCount
        (pointsUpdate b1 (toPoint - 1) (pointAt b1 (toPoint - 1) ++ [ctm])) c
        = checkerCount s.boardState c := by
      intro c
      have e3 := checkerCount_pointsUpdate b1 (toPoint - 1)
        (pointAt b1 (toPoint - 1) ++ [ctm]) c hlt24
      rw [count_append_singleton] at e3
      have e4 := hcount c
      omega
    refine ⟨h.player, ?_, ?_, ?_, ?_, ?_, ?_, ?_⟩
    · exact (hccc Col.white).trans h.countW
    · exact (hccc Col.black).trans h.countB
    · intro d hd
      exact h.dice d (consumeDice_mem d hd)
    · intro m hm
      cases hm
    · intro r hr
      rcases List.mem_append.mp hr with hr | hr
      · exact h.hist r hr
      · rw [List.mem_singleton] at hr
        subst hr
        refine ⟨hto, hdu, hfrom, fun hcontra => ?_⟩
        exfalso
        exact hhit (of_decide_eq_true hcontra)
    · intro n hn
      cases hn
    · intro c
      rw [List.countP_append, List.countP_cons, List.countP_nil]
      rw [bar_pointsUpdate]
      have hpred : histPred c ⟨fp, toPoint, s.currentPlayer, decide (¬(toPoint = 0 ∨
          toPoint = 25) ∧ csTo.length = 1 ∧ csTo.head? = some opp),
          none, du⟩ = false := by
        unfold histPred
        dsimp only
        rw [decide_eq_false hhit]
        rfl
      rw [hpred]
      have := hbarc c
      simp
      omega

theorem sortDesc_mem {l : List Nat} {d : Nat} : d ∈ sortDesc l ↔ d ∈ l := by
  unfold sortDesc
  exact List.mem_insertionSort _

theorem bar_barDec (b : Board) (c : Col) :
    (barDec b c).bar = Function.update b.bar c (b.bar c - 1) := rfl

/-- No outstanding hit record can name the mover's own color: every hit
record names the opponent color, which differs from the current player. -/
theorem countP_histPred_player (s : GameState) (h : EngineInv s) :
    s.moveHistory.countP (histPred s.currentPlayer) = 0 := by
  rw [List.countP_eq_zero]
  intro r hr hcontra
  unfold histPred at hcontra
  rw [Bool.and_eq_true] at hcontra
  have h4 := (h.hist r hr).2.2.2 hcontra.1
  have h5 : r.hitCheckerColor = some s.currentPlayer := of_decide_eq_true hcontra.2
  rw [h4] at h5
  exact getOpponentColor_ne s.currentPlayer h.player (Option.some.inj h5)

/-- `performMove` preserves the engine invariant whenever the target is a
board point 1-24 and the consumed dice are face values — as is the case at
every call site reachable through `handlePointClick`. -/
theorem engineInv_performMove (s : GameState) (fp : Src) (toPoint : Nat) (du : List Nat)
    (h : EngineInv s)
    (hto : 1 ≤ toPoint ∧ toPoint ≤ 24)
    (hdu : ∀ d ∈ du, 1 ≤ d ∧ d ≤ 6) :
    EngineInv (performMove s fp toPoint du) := by
  have hnbo : ¬(toPoint = 0 ∨ toPoint = 25) := by omega
  unfold performMove
  dsimp only
  cases fp with
  | bar =>
    dsimp only
    by_cases hbar : s.boardState.bar s.currentPlayer > 0
    · rw [if_pos hbar]
      dsimp only
      rw [if_neg hnbo, if_pos hto]
      have hcount : ∀ c, checkerCount (barDec s.boardState s.currentPlayer) c
          + (if s.currentPlayer = c then 1 else 0) = checkerCount s.boardState c :=
        fun c => checkerCount_barDec s.boardState s.currentPlayer c hbar
      have hbarc : ∀ c, s.moveHistory.countP (histPred c)
          ≤ (barDec s.boardState s.currentPlayer).bar c := by
        intro c
        rw [bar_barDec]
        by_cases hc : c = s.currentPlayer
        · subst hc
          rw [Function.update_same, countP_histPred_player s h]
          exact Nat.zero_le _
        · rw [Function.update_noteq hc]
          exact h.barH c
      exact engineInv_moveResult s Src.bar toPoint du
        (barDec s.boardState s.currentPlayer) s.currentPlayer h hto hdu
        (Or.inl rfl) hcount hbarc
    · rw [if_neg hbar]
      exact engineInv_msg s _ h
  | pt n =>
    dsimp only
    by_cases hn : 1 ≤ n ∧ n ≤ 24
    · rw [if_pos hn]
      by_cases hcond : (pointAt s.boardState (n - 1)).isEmpty = true ∨
          ¬((pointAt s.boardState (n - 1)).head? = some s.currentPlayer)
      · rw [if_pos hcond]
        exact engineInv_msg s _ h
      · rw [if_neg hcond]
        dsimp only
        rw [if_neg hnbo, if_pos hto]
        rw [not_or, not_not] at hcond
        obtain ⟨hemp, hhead⟩ := hcond
        have hne : pointAt s.boardState (n - 1) ≠ [] := by
          intro hnil
          rw [hnil] at hemp
          exact hemp rfl
        have hlt : n - 1 < 24 := by omega
        have hglD : (pointAt s.boardState (n - 1)).getLastD s.currentPlayer
            = (pointAt s.boardState (n - 1)).getLast hne := by
          rw [List.getLastD_eq_getLast?, List.getLast?_eq_getLast _ hne]
          rfl
        have hcount : ∀ c, checkerCount (pointsUpdate s.boardState (n - 1)
              (pointAt s.boardState (n - 1)).dropLast) c
            + (if (pointAt s.boardState (n - 1)).getLastD s.currentPlayer = c
                then 1 else 0)
            = checkerCount s.boardState c := by
          intro c
          have e1 := checkerCount_pointsUpdate s.boardState (n - 1)
            (pointAt s.boardState (n - 1)).dropLast c hlt
          have e2 := count_dropLast_add (pointAt s.boardState (n - 1)) c hne
          rw [List.getLast?_eq_getLast _ hne] at e2
          have e3 : (if some ((pointAt s.boardState (n - 1)).getLast hne) = some c
              then 1 else 0)
              = (if (pointAt s.boardState (n - 1)).getLast hne = c then 1 else 0) := by
            by_cases hc : (pointAt s.boardState (n - 1)).getLast hne = c
            · rw [if_pos (congrArg some hc), if_pos hc]
            · rw [if_neg (fun hcon => hc (Option.some.inj hcon)), if_neg hc]
          rw [e3] at e2
          rw [hglD]
          omega
        have hbarc : ∀ c, s.moveHistory.countP (histPred c)
            ≤ (pointsUpdate s.boardState (n - 1)
                (pointAt s.boardState (n - 1)).dropLast).bar c := by
          intro c
          rw [bar_pointsUpdate]
          exact h.barH c
        exact engineInv_moveResult s (Src.pt n) toPoint du
          (pointsUpdate s.boardState (n - 1) (pointAt s.boardState (n - 1)).dropLast)
          ((pointAt s.boardState (n - 1)).getLastD s.currentPlayer) h hto hdu
          (Or.inr ⟨n, rfl, hn.1, hn.2⟩) hcount hbarc
    · rw [if_neg hn]
      exact engineInv_msg s _ h

/-- Invariant preservation for the final phase of `undoLastMove`,
abstracted over the fully restored board `b2`. -/
theorem engineInv_undoResult (s : GameState) (lastMove : MoveRecord) (b2 : Board)
    (h : EngineInv s)
    (hdu : ∀ d ∈ lastMove.usedDice, 1 ≤ d ∧ d ≤ 6)
    (hcount : ∀ c, checkerCount b2 c = checkerCount s.boardState c)
    (hbar2 : ∀ c, s.moveHistory.dropLast.countP (histPred c) ≤ b2.bar c) :
    EngineInv
      (let s1 := { s with
          moveHistory := s.moveHistory.dropLast, boardState := b2,
          availableDice := sortDesc (s.availableDice ++ lastMove.usedDice),
          selectedPoint := none, possibleMovesInfo := [],
          gameMessage := "Last move undone." }
       if b2.bar s.currentPlayer > 0 then
         { s1 with
            mustReenterFromBar := true,
            possibleMovesInfo := calculatePossibleMoves Src.bar
              (s.availableDice ++ lastMove.usedDice) s.currentPlayer b2
              s.mustReenterFromBar }
       else { s1 with mustReenterFromBar := false }) := by
  dsimp only
  have hdice : ∀ d ∈ sortDesc (s.availableDice ++ lastMove.usedDice),
      1 ≤ d ∧ d ≤ 6 := by
    intro d hd
    rw [sortDesc_mem, List.mem_append] at hd
    rcases hd with hd | hd
    · exact h.dice d hd
    · exact hdu d hd
  have hhist : ∀ r ∈ s.moveHistory.dropLast, (1 ≤ r.toPoint ∧ r.toPoint ≤ 24) ∧
      (∀ d ∈ r.usedDice, 1 ≤ d ∧ d ≤ 6) ∧
      (r.fromPoint = Src.bar ∨ ∃ n, r.fromPoint = Src.pt n ∧ 1 ≤ n ∧ n ≤ 24) ∧
      (r.hitOpponentChecker = true →
        r.hitCheckerColor = some (getOpponentColor s.currentPlayer)) :=
    fun r hr => h.hist r (List.dropLast_subset _ hr)
  by_cases hb : b2.bar s.currentPlayer > 0
  · rw [if_pos hb]
    refine ⟨h.player, (hcount Col.white).trans h.countW,
      (hcount Col.black).trans h.countB, hdice, ?_, hhist, ?_, hbar2⟩
    · refine calculatePossibleMoves_mem_bound Src.bar _ s.currentPlayer b2
        s.mustReenterFromBar ?_
      intro d hd
      rw [List.mem_append] at hd
      rcases hd with hd | hd
      · exact h.dice d hd
      · exact hdu d hd
    · intro n hn
      cases hn
  · rw [if_neg hb]
    refine ⟨h.player, (hcount Col.white).trans h.countW,
      (hcount Col.black).trans h.countB, hdice, ?_, hhist, ?_, hbar2⟩
    · intro m hm
      cases hm
    · intro n hn
      cases hn

/-- Invariant preservation for the success tail of `undoLastMove` (from the
hit-reversal join onward), abstracted over the board `b1` that already has
the moved checker returned to its source. -/
theorem engineInv_undoHit (s : GameState) (lastMove : MoveRecord) (b1 : Board)
    (h : EngineInv s)
    (hlast : s.moveHistory.getLast? = some lastMove)
    (hto : 1 ≤ lastMove.toPoint ∧ lastMove.toPoint ≤ 24)
    (hdu : ∀ d ∈ lastMove.usedDice, 1 ≤ d ∧ d ≤ 6)
    (hhitcol : lastMove.hitOpponentChecker = true →
      lastMove.hitCheckerColor = some (getOpponentColor s.currentPlayer))
    (hcount1 : ∀ c, checkerCount b1 c = checkerCount s.boardState c)
    (hbarge1 : ∀ c, s.boardState.bar c ≤ b1.bar c) :
    EngineInv
      (let b2 :=
        match lastMove.hitOpponentChecker, lastMove.hitCheckerColor with
        | true, some hitColor =>
          let bp := barDec b1 hitColor
          if ¬(lastMove.toPoint = 0) ∧ ¬(lastMove.toPoint = 25) then
            pointsUpdate bp (lastMove.toPoint - 1)
              (pointAt bp (lastMove.toPoint - 1) ++ [hitColor])
          else bp
        | _, _ => b1
       let s1 := { s with
          moveHistory := s.moveHistory.dropLast, boardState := b2,
          availableDice := sortDesc (s.availableDice ++ lastMove.usedDice),
          selectedPoint := none, possibleMovesInfo := [],
          gameMessage := "Last move undone." }
       if b2.bar s.currentPlayer > 0 then
         { s1 with
            mustReenterFromBar := true,
            possibleMovesInfo := calculatePossibleMoves Src.bar
              (s.availableDice ++ lastMove.usedDice) s.currentPlayer b2
              s.mustReenterFromBar }
       else { s1 with mustReenterFromBar := false }) := by
  dsimp only
  have hsplit : s.moveHistory.dropLast ++ [lastMove] = s.moveHistory :=
    List.dropLast_append_getLast? lastMove (Option.mem_def.mpr hlast)
  have hmem : lastMove ∈ s.moveHistory := by
    rw [← hsplit]
    exact List.mem_append_right _ (List.mem_singleton_self lastMove)
  cases hhit : lastMove.hitOpponentChecker with
  | true =>
    rw [hhitcol hhit]
    dsimp only
    rw [if_pos (by omega : ¬(lastMove.toPoint = 0) ∧ ¬(lastMove.toPoint = 25))]
    have hlt : lastMove.toPoint - 1 < 24 := by omega
    have hpl : histPred (getOpponentColor s.currentPlayer) lastMove = true := by
      unfold histPred
      rw [hhit, hhitcol hhit]
      simp
    have hpos : 0 < b1.bar (getOpponentColor s.currentPlayer) := by
      have h1 := List.countP_pos_iff.mpr ⟨lastMove, hmem, hpl⟩
      have h2 := h.barH (getOpponentColor s.currentPlayer)
      have h3 := hbarge1 (getOpponentColor s.currentPlayer)
      omega
    have hcount2 : ∀ c, checkerCount
        (pointsUpdate (barDec b1 (getOpponentColor s.currentPlayer))
          (lastMove.toPoint - 1)
          (pointAt (barDec b1 (getOpponentColor s.currentPlayer))
            (lastMove.toPoint - 1) ++ [getOpponentColor s.currentPlayer])) c
        = checkerCount s.boardState c := by
      intro c
      have e6 := checkerCount_barDec b1 (getOpponentColor s.currentPlayer) c hpos
      have e7 := checkerCount_pointsUpdate
        (barDec b1 (getOpponentColor s.currentPlayer)) (lastMove.toPoint - 1)
        (pointAt (barDec b1 (getOpponentColor s.currentPlayer))
          (lastMove.toPoint - 1) ++ [getOpponentColor s.currentPlayer]) c hlt
      rw [count_append_singleton] at e7
      have e8 := hcount1 c
      omega
    have hbar2 : ∀ c, s.moveHistory.dropLast.countP (histPred c)
        ≤ (pointsUpdate (barDec b1 (getOpponentColor s.currentPlayer))
            (lastMove.toPoint - 1)
            (pointAt (barDec b1 (getOpponentColor s.currentPlayer))
              (lastMove.toPoint - 1) ++ [getOpponentColor s.currentPlayer])).bar c := by
      intro c
      rw [bar_pointsUpdate, bar_barDec]
      have hcf : s.moveHistory.countP (histPred c)
          = s.moveHistory.dropLast.countP (histPred c)
            + List.countP (histPred c) [lastMove] := by
        conv_lhs => rw [← hsplit]
        rw [List.countP_append]
      have hfull := h.barH c
      have hge := hbarge1 c
      by_cases hc : getOpponentColor s.currentPlayer = c
      · subst hc
        rw [Function.update_same]
        have hone : List.countP (histPred (getOpponentColor s.currentPlayer))
            [lastMove] = 1 := by
          rw [List.countP_cons, List.countP_nil, if_pos hpl]
        omega
      · rw [Function.update_noteq (fun hcc => hc hcc.symm)]
        omega
    exact engineInv_undoResult s lastMove _ h hdu hcount2 hbar2
  | false =>
    dsimp only
    refine engineInv_undoResult s lastMove b1 h hdu hcount1 ?_
    intro c
    have h1 := (List.dropLast_sublist s.moveHistory).countP_le (histPred c)
    have h2 := h.barH c
    have h3 := hbarge1 c
    omega

/-- `undoLastMove` preserves the engine invariant. -/
theorem engineInv_undoLastMove (s : GameState) (h : EngineInv s) :
    EngineInv (undoLastMove s) := by
  unfold undoLastMove
  cases hlast : s.moveHistory.getLast? with
  | none =>
    exact engineInv_msg s _ h
  | some lastMove =>
    dsimp only
    have hsplit : s.moveHistory.dropLast ++ [lastMove] = s.moveHistory :=
      List.dropLast_append_getLast? lastMove (Option.mem_def.mpr hlast)
    have hmem : lastMove ∈ s.moveHistory := by
      rw [← hsplit]
      exact List.mem_append_right _ (List.mem_singleton_self lastMove)
    obtain ⟨hto, hdu, hfrom, hhitcol⟩ := h.hist lastMove hmem
    have hnbo : ¬(lastMove.toPoint = 0 ∨ lastMove.toPoint = 25) := by omega
    rw [if_neg hnbo]
    by_cases hgl : (pointAt s.boardState (lastMove.toPoint - 1)).getLast?
        = some lastMove.checkerColor
    case neg =>
      rw [if_pos hgl]
      refine ⟨h.player, h.countW, h.countB, h.dice, h.pmi, ?_, h.sel, ?_⟩
      · intro r hr
        exact h.hist r (List.dropLast_subset _ hr)
      · intro c
        exact le_trans ((List.dropLast_sublist s.moveHistory).countP_le (histPred c))
          (h.barH c)
    case pos =>
      rw [if_neg (not_not_intro hgl)]
      have hne : pointAt s.boardState (lastMove.toPoint - 1) ≠ [] := by
        intro hnil
        rw [hnil] at hgl
        simp at hgl
      have hlt : lastMove.toPoint - 1 < 24 := by omega
      have hstep : ∀ c, checkerCount (pointsUpdate s.boardState
            (lastMove.toPoint - 1)
            (pointAt s.boardState (lastMove.toPoint - 1)).dropLast) c
          + (if lastMove.checkerColor = c then 1 else 0)
          = checkerCount s.boardState c := by
        intro c
        have e1 := checkerCount_pointsUpdate s.boardState (lastMove.toPoint - 1)
          (pointAt s.boardState (lastMove.toPoint - 1)).dropLast c hlt
        have e2 := count_dropLast_add (pointAt s.boardState (lastMove.toPoint - 1)) c hne
        rw [hgl] at e2
        have e3 : (if some lastMove.checkerColor = some c then 1 else 0)
            = (if lastMove.checkerColor = c then 1 else 0) := by
          by_cases hc : lastMove.checkerColor = c
          · rw [if_pos (congrArg some hc), if_pos hc]
          · rw [if_neg (fun hcon => hc (Option.some.inj hcon)), if_neg hc]
        rw [e3] at e2
        omega
      rcases hfrom with hsrc | ⟨n, hsrc, hn1, hn24⟩
      · rw [hsrc]
        dsimp only
        refine engineInv_undoHit s lastMove _ h hlast hto hdu hhitcol ?_ ?_
        · intro c
          have e4 := checkerCount_barInc (pointsUpdate s.boardState
            (lastMove.toPoint - 1)
            (pointAt s.boardState (lastMove.toPoint - 1)).dropLast)
            lastMove.checkerColor c
          have e5 := hstep c
          omega
        · intro c
          rw [bar_barInc, bar_pointsUpdate]
          by_cases hc : lastMove.checkerColor = c
          · subst hc
            rw [Function.update_same]
            exact Nat.le_succ _
          · rw [Function.update_noteq (fun hcc => hc hcc.symm)]
      · rw [hsrc]
        dsimp only
        have hltn : n - 1 < 24 := by omega
        refine engineInv_undoHit s lastMove _ h hlast hto hdu hhitcol ?_ ?_
        · intro c
          have e4 := checkerCount_pointsUpdate (pointsUpdate s.boardState
              (lastMove.toPoint - 1)
              (pointAt s.boardState (lastMove.toPoint - 1)).dropLast) (n - 1)
            (pointAt (pointsUpdate s.boardState (lastMove.toPoint - 1)
                (pointAt s.boardState (lastMove.toPoint - 1)).dropLast) (n - 1)
              ++ [lastMove.checkerColor]) c hltn
          rw [count_append_singleton] at e4
          have e5 := hstep c
          omega
        · intro c
          rw [bar_pointsUpdate, bar_pointsUpdate]

/-- `handlePointClick` preserves the engine invariant for every click on a
point or bear-off area (`p ≤ 25`). -/
theorem engineInv_handlePointClick (s : GameState) (p : Nat) (hp : p ≤ 25)
    (h : EngineInv s) : EngineInv (handlePointClick s p) := by
  unfold handlePointClick
  by_cases h1 : ¬s.isPlaying = true ∨ s.availableDice = []
  · rw [if_pos h1]
    exact engineInv_msg s _ h
  rw [if_neg h1]
  by_cases h2 : s.selectedPoint = some p
  · rw [if_pos h2]
    exact ⟨h.player, h.countW, h.countB, h.dice, fun m hm => absurd hm (by simp),
      h.hist, fun n hn => absurd hn (by simp), h.barH⟩
  rw [if_neg h2]
  dsimp only
  by_cases h3 : s.mustReenterFromBar = true
  · rw [if_pos h3]
    by_cases h4 : p = 0 ∨ p = 25
    · rw [if_pos h4]
      exact engineInv_msg s _ h
    · rw [if_neg h4]
      cases hfind : s.possibleMovesInfo.find? (fun m => m.targetPoint = p) with
      | none =>
        exact engineInv_msg s _ h
      | some m =>
        have hmem := List.mem_of_find?_eq_some hfind
        have hb := h.pmi m hmem
        have htp : m.targetPoint = p := by
          have := List.find?_some hfind
          simpa using this
        rw [htp] at hb
        exact engineInv_performMove s Src.bar p m.diceUsed h hb.1 hb.2
  · rw [if_neg h3]
    have hfall : EngineInv
        (if p = 0 ∨ p = 25 then
          { s with gameMessage := "You cannot select checkers from the bear-off area.",
                   selectedPoint := none, possibleMovesInfo := [] }
         else if ¬(pointAt s.boardState (p - 1)).isEmpty = true ∧
             (pointAt s.boardState (p - 1)).head? = some s.currentPlayer then
          { s with selectedPoint := some p,
                   possibleMovesInfo := calculatePossibleMoves (Src.pt p)
                     s.availableDice s.currentPlayer s.boardState s.mustReenterFromBar,
                   gameMessage := "Selected checker. Now choose a destination." }
         else
          { s with gameMessage :=
              "You do not have checkers on this point. Please select your own checker.",
                   selectedPoint := none, possibleMovesInfo := [] }) := by
      by_cases h4 : p = 0 ∨ p = 25
      · rw [if_pos h4]
        exact ⟨h.player, h.countW, h.countB, h.dice, fun m hm => absurd hm (by simp),
          h.hist, fun n hn => absurd hn (by simp), h.barH⟩
      · rw [if_neg h4]
        by_cases h5 : ¬(pointAt s.boardState (p - 1)).isEmpty = true ∧
            (pointAt s.boardState (p - 1)).head? = some s.currentPlayer
        · rw [if_pos h5]
          refine ⟨h.player, h.countW, h.countB, h.dice, ?_, h.hist, ?_, h.barH⟩
          · exact calculatePossibleMoves_mem_bound (Src.pt p) s.availableDice
              s.currentPlayer s.boardState s.mustReenterFromBar h.dice
          · intro n hn
            dsimp only at hn
            rw [Option.some.injEq] at hn
            subst hn
            omega
        · rw [if_neg h5]
          exact ⟨h.player, h.countW, h.countB, h.dice, fun m hm => absurd hm (by simp),
            h.hist, fun n hn => absurd hn (by simp), h.barH⟩
    cases hsel : s.selectedPoint with
    | none =>
      cases hfind : s.possibleMovesInfo.find? (fun m => m.targetPoint = p) with
      | none => exact hfall
      | some m => exact hfall
    | some sp =>
      cases hfind : s.possibleMovesInfo.find? (fun m => m.targetPoint = p) with
      | none => exact hfall
      | some m =>
        have hmem := List.mem_of_find?_eq_some hfind
        have hb := h.pmi m hmem
        have htp : m.targetPoint = p := by
          have := List.find?_some hfind
          simpa using this
        rw [htp] at hb
        exact engineInv_performMove s (Src.pt sp) p m.diceUsed h hb.1 hb.2

/-- Every reachable state satisfies the engine invariant. -/
theorem reachable_inv (s : GameState) (hs : Reachable s) : EngineInv s := by
  unfold Reachable at hs
  induction hs with
  | refl => exact engineInv_initial
  | tail hab hbc ih =>
    cases hbc with
    | roll d1 d2 h1 h2 h3 h4 hav => exact engineInv_roll _ d1 d2 ih h1 h2 h3 h4
    | click q hq => exact engineInv_handlePointClick _ q hq ih
    | undo => exact engineInv_undoLastMove _ ih
    | turnEnd hcond => exact engineInv_endTurn _ ih

/-- C1: in every state reachable from the started match by any sequence of
engine operations (dice rolls, point clicks driving `performMove`, undo
requests, automatic turn ends), and for each checker color, the number of
that color's checkers on the 24 points plus that color's bar count plus
that color's home count equals 15. -/
theorem c1_reachable_checker_conservation (s : GameState) (hs : Reachable s) :
    checkerCount s.boardState Col.white = 15 ∧
    checkerCount s.boardState Col.black = 15 :=
  ⟨(reachable_inv s hs).countW, (reachable_inv s hs).countB⟩

theorem c1_reachable_checker_conservation_witness :
    Reachable initialState ∧
    (checkerCount initialState.boardState Col.white = 15 ∧
     checkerCount initialState.boardState Col.black = 15) :=
  ⟨Relation.ReflTransGen.refl,
   c1_reachable_checker_conservation initialState Relation.ReflTransGen.refl⟩
